import Mathlib

set_option allowUnsafeReducibility true in
attribute [semireducible] Rat.add Rat.mul Rat.inv Rat.div Rat.sub Rat.neg

/-!
Shallow embedding of the SIUS ScoreCalculator CSV core (`sius_csv.py`,
`sius_fields.py`, and the filter/summary orchestration in `app_web.py`),
together with theorems settling the frozen specification claims.

Modelling conventions:
* Python `str` cells are Lean `String`s; rows are `List String`.
* Python numbers produced by `_parse_value` are modelled by `PyVal`
  (`int` as `ℤ`, `float` as `PyFloat`).  Finite floats are modelled as
  exact rationals (IEEE-754 rounding is not modelled); `float("inf")`,
  `float("-inf")` and `float("nan")` are explicit constructors.
  Overflow of large finite literals to infinity and digit-group
  underscores in numeric literals are not modelled; no claim depends on
  either.
* Fallible Python code is embedded in `Except PyError`; an uncaught
  exception is an `Except.error`.
* Python's stable `list.sort` / `sorted` is modelled by
  `List.insertionSort` with the non-strict comparison relation derived
  from the sort key; for a total preorder key this computes exactly the
  stable sort that CPython produces.  (NaN sort keys, under which
  CPython's result is unspecified, are excluded by hypothesis in the
  ordering theorems.)
* Python `dict` (insertion ordered) is an association list with
  first-occurrence key order; `defaultdict` access-and-update is
  `amodify`.
-/

/-- Python float values as produced by `float(str)`: finite values are
modelled as exact rationals; infinities and NaN are explicit. -/
inductive PyFloat where
  | finite (q : ℚ)
  | inf
  | neginf
  | nan
deriving DecidableEq

/-- Result values of `_parse_value`: a Python `int` or a Python `float`. -/
inductive PyVal where
  | vInt (n : ℤ)
  | vFloat (f : PyFloat)
deriving DecidableEq

/-- Python exceptions that the embedded code can raise. -/
inductive PyError where
  | valueError (msg : String)
  | overflowError (msg : String)
  | keyError (key : String)
deriving DecidableEq

/-- Whitespace stripped from both ends of a character list. -/
def stripChars (l : List Char) : List Char :=
  ((l.dropWhile Char.isWhitespace).reverse.dropWhile Char.isWhitespace).reverse

/-- Python `str.strip()` (whitespace at both ends removed). -/
def pyStrip (s : String) : String := String.mk (stripChars s.toList)

/-- Decimal value of a list of ASCII digit characters. -/
def digitsVal (l : List Char) : ℕ :=
  l.foldl (fun a c => a * 10 + (c.toNat - 48)) 0

/-- Leading optional sign of a Python numeric literal: returns
(isNegative, rest). -/
def parseSignChars : List Char → Bool × List Char
  | '+' :: r => (false, r)
  | '-' :: r => (true, r)
  | l => (false, l)

/-- Exponent suffix of a float literal: empty input keeps the mantissa,
`e`-prefixed sign+digits scales it, anything else is a parse error. -/
def parseExpPart (l : List Char) (m : ℚ) : Option ℚ :=
  match l with
  | [] => some m
  | 'e' :: rest =>
    let p := parseSignChars rest
    let d := p.2.span Char.isDigit
    if d.1.isEmpty ∨ ¬ d.2.isEmpty then none
    else some (if p.1 then m / 10 ^ digitsVal d.1 else m * 10 ^ digitsVal d.1)
  | _ => none

/-- Unsigned, lowercased body of a Python float literal
(`digits[.digits][e[sign]digits]`, also `.digits`). -/
def parseNumberChars (l : List Char) : Option ℚ :=
  let ip := l.span Char.isDigit
  match ip.2 with
  | '.' :: rest2 =>
    let fp := rest2.span Char.isDigit
    if ip.1.isEmpty ∧ fp.1.isEmpty then none
    else parseExpPart fp.2 ((digitsVal (ip.1 ++ fp.1) : ℚ) / 10 ^ fp.1.length)
  | _ => if ip.1.isEmpty then none else parseExpPart ip.2 ((digitsVal ip.1 : ℚ))

/-- Python `float(s)` on an already stripped string: optional sign, then
the keywords `inf`/`infinity`/`nan` (case-insensitive) or a decimal
literal; `none` is a `ValueError`. -/
def parseFloatChars (l : List Char) : Option PyFloat :=
  let p := parseSignChars l
  let lw := p.2.map Char.toLower
  if lw = "inf".toList ∨ lw = "infinity".toList then
    some (if p.1 then PyFloat.neginf else PyFloat.inf)
  else if lw = "nan".toList then some PyFloat.nan
  else
    match parseNumberChars lw with
    | some q => some (PyFloat.finite (if p.1 then -q else q))
    | none => none

/-- Python `float(s)` (strips surrounding whitespace first). -/
def pyFloatOfString (s : String) : Option PyFloat :=
  parseFloatChars (pyStrip s).toList

/-- Python `int(s)`: optional sign then nonempty digits; `none` is a
`ValueError`. -/
def pyIntOfString (s : String) : Option ℤ :=
  let l := (pyStrip s).toList
  let p := parseSignChars l
  if p.2.isEmpty ∨ ¬ p.2.all Char.isDigit then none
  else some (if p.1 then -(digitsVal p.2 : ℤ) else (digitsVal p.2 : ℤ))

/-- Embedding of `_parse_value` (sius_csv.py): strip; empty means no
value; with a `.` or an `e` parse as float, else as int; a parse
failure is caught and becomes no value. -/
def pyParseValue (value : String) : Option PyVal :=
  let v := pyStrip value
  if v = "" then none
  else if v.toList.contains '.' ∨ (v.toList.map Char.toLower).contains 'e' then
    (pyFloatOfString v).map PyVal.vFloat
  else
    (pyIntOfString v).map PyVal.vInt

/-- Embedding of `_is_numeric` (sius_csv.py): nonempty after strip and
accepted by `float()`. -/
def isNumericStr (value : String) : Bool :=
  let v := pyStrip value
  if v = "" then false else (pyFloatOfString v).isSome

/-- Truncation toward zero, the behaviour of Python `int(float)`. -/
def pyTruncQ (q : ℚ) : ℤ := if q < 0 then -⌊-q⌋ else ⌊q⌋

/-- Round-half-to-even to an integer, the behaviour of Python `round`. -/
def roundHalfEven (q : ℚ) : ℤ :=
  let f := ⌊q⌋
  let r := q - f
  if r < 1/2 then f
  else if 1/2 < r then f + 1
  else if f % 2 = 0 then f else f + 1

/-- Python `round(x, 4)` on a finite float value. -/
def pyRoundQ4 (q : ℚ) : ℚ := (roundHalfEven (q * 10000) : ℚ) / 10000

-- quick sanity checks of the numeric model
example : pyParseValue "5.5" = some (PyVal.vFloat (PyFloat.finite (11/2))) := by decide
example : pyParseValue " 05 " = some (PyVal.vInt 5) := by decide
example : pyParseValue "abc" = none := by decide
example : pyParseValue "" = none := by decide
example : pyParseValue "1e2" = some (PyVal.vFloat (PyFloat.finite 100)) := by decide
example : pyParseValue "-2.25" = some (PyVal.vFloat (PyFloat.finite (-9/4))) := by decide
example : pyFloatOfString "inf" = some PyFloat.inf := by decide
example : pyFloatOfString "-Infinity" = some PyFloat.neginf := by decide
example : pyFloatOfString "nan" = some PyFloat.nan := by decide
example : pyParseValue "nan" = none := by decide
example : isNumericStr "inf" = true := by decide
example : isNumericStr "x" = false := by decide
example : pyTruncQ (-5/2) = -2 := by decide
example : pyTruncQ (11/2) = 5 := by decide
example : roundHalfEven (5/2) = 2 := by decide
example : roundHalfEven (7/2) = 4 := by decide
example : pyRoundQ4 (1/3) = 3333/10000 := by decide

/-- Numeric value of a parsed cell for float accumulation (Python
`float + int/float`).  Non-finite floats never arise from
`_parse_value` (its float branch requires a `.` or `e`, which the
`inf`/`nan` keywords lack), so they are mapped to `0` as junk. -/
def pyValToQ : PyVal → ℚ
  | .vInt n => (n : ℚ)
  | .vFloat (.finite q) => q
  | .vFloat _ => 0

/-- Python `v == 0` on a parsed value (`inf`, `-inf`, `nan` are all
nonzero). -/
def pyValIsZero : PyVal → Bool
  | .vInt n => n = 0
  | .vFloat (.finite q) => q = 0
  | .vFloat _ => false

/-- Python `int(v)` on a parsed value: truncation toward zero; raises
`OverflowError` on infinities and `ValueError` on NaN. -/
def pyValToIntTrunc : PyVal → Except PyError ℤ
  | .vInt n => .ok n
  | .vFloat (.finite q) => .ok (pyTruncQ q)
  | .vFloat .inf => .error (.overflowError "cannot convert float infinity to integer")
  | .vFloat .neginf => .error (.overflowError "cannot convert float infinity to integer")
  | .vFloat .nan => .error (.valueError "cannot convert float NaN to integer")

/-- Python `math.floor(v)` on a parsed value; raises on non-finite
floats. -/
def pyValFloor : PyVal → Except PyError ℤ
  | .vInt n => .ok n
  | .vFloat (.finite q) => .ok ⌊q⌋
  | .vFloat .inf => .error (.overflowError "cannot convert float infinity to integer")
  | .vFloat .neginf => .error (.overflowError "cannot convert float infinity to integer")
  | .vFloat .nan => .error (.valueError "cannot convert float NaN to integer")

/-- Python `round(v, 4)`: identity on ints and non-finite floats,
round-half-even at 4 fractional digits on finite floats. -/
def pyRound4Val : PyVal → PyVal
  | .vInt n => .vInt n
  | .vFloat (.finite q) => .vFloat (.finite (pyRoundQ4 q))
  | .vFloat f => .vFloat f

/-- Embedding of `_decimal_and_integer_scores` (sius_csv.py): derive the
(decimal, integer) score pair from the parsed primary/secondary values
and the column-wide `primary_is_decimal` flag. -/
def decimalAndIntegerScores (primaryVal secondaryVal : Option PyVal)
    (primaryIsDecimal : Bool) : Except PyError (Option PyVal × Option ℤ) :=
  if primaryIsDecimal then
    match secondaryVal, primaryVal with
    | some s, p =>
      if pyValIsZero s then
        match p with
        | some pv =>
          match pyValFloor pv with
          | .ok i => .ok (p, some i)
          | .error e => .error e
        | none => .ok (p, none)
      else
        match pyValToIntTrunc s with
        | .ok i => .ok (p, some i)
        | .error e => .error e
    | none, some pv =>
      match pyValFloor pv with
      | .ok i => .ok (some pv, some i)
      | .error e => .error e
    | none, none => .ok (none, none)
  else
    match primaryVal with
    | some pv =>
      match pyValToIntTrunc pv with
      | .ok i => .ok (secondaryVal, some i)
      | .error e => .error e
    | none => .ok (secondaryVal, none)

/-- Embedding of `_column_has_decimals` (sius_csv.py): scan the column
for a parseable value with a nonzero fractional part.  The `try` block
catches only `ValueError` (failed `float()` and `int(nan)`); `int()` on
an infinite value raises an uncaught `OverflowError`. -/
def columnHasDecimals (rows : List (List String)) (colIdx : ℕ) : Except PyError Bool :=
  match rows with
  | [] => .ok false
  | row :: rest =>
    if colIdx ≥ row.length then columnHasDecimals rest colIdx
    else
      let v := pyStrip (row.getD colIdx "")
      if v = "" then columnHasDecimals rest colIdx
      else
        match pyFloatOfString v with
        | none => columnHasDecimals rest colIdx
        | some (.finite q) =>
          if q ≠ (pyTruncQ q : ℚ) then .ok true else columnHasDecimals rest colIdx
        | some .nan => columnHasDecimals rest colIdx
        | some .inf => .error (.overflowError "cannot convert float infinity to integer")
        | some .neginf => .error (.overflowError "cannot convert float infinity to integer")

/-- Code-point comparison of character lists, Python's `str` `<`. -/
def charListLt : List Char → List Char → Bool
  | _, [] => false
  | [], _ :: _ => true
  | a :: as, b :: bs =>
    if a.toNat < b.toNat then true
    else if b.toNat < a.toNat then false
    else charListLt as bs

/-- Python string `<` (lexicographic by code point). -/
def pyStrLt (a b : String) : Bool := charListLt a.toList b.toList

/-- Embedding of `_time_sort_key` (sius_csv.py): `(0, float(v))` when the
time parses as a number, else `(1, v)`; modelled as a sum type whose
left summand is the smaller category. -/
def timeSortKey (timeVal : String) : PyFloat ⊕ String :=
  let v := pyStrip timeVal
  match pyFloatOfString v with
  | some f => Sum.inl f
  | none => Sum.inr v

/-- Python `<` on floats: NaN is incomparable, `-inf < finite < inf`. -/
def pyFloatLt : PyFloat → PyFloat → Bool
  | .finite a, .finite b => a < b
  | .finite _, .inf => true
  | .neginf, .finite _ => true
  | .neginf, .inf => true
  | _, _ => false

/-- Python tuple comparison on `_time_sort_key` results: the numeric
category `(0, _)` is below the string category `(1, _)`. -/
def timeKeyLt : PyFloat ⊕ String → PyFloat ⊕ String → Bool
  | .inl a, .inl b => pyFloatLt a b
  | .inl _, .inr _ => true
  | .inr _, .inl _ => false
  | .inr a, .inr b => pyStrLt a b

/-- Python `str.isdigit()` (restricted to ASCII digits). -/
def pyIsDigit (s : String) : Bool := ¬ s.toList.isEmpty ∧ s.toList.all Char.isDigit

/-- Python `str.zfill(width)`: left-pad with zeros after any sign. -/
def pyZfill (s : String) (width : ℕ) : String :=
  let l := s.toList
  if width ≤ l.length then s
  else
    match l with
    | '+' :: rest => String.mk ('+' :: (List.replicate (width - l.length) '0' ++ rest))
    | '-' :: rest => String.mk ('-' :: (List.replicate (width - l.length) '0' ++ rest))
    | _ => String.mk (List.replicate (width - l.length) '0' ++ l)

/-- Sort key used by both aggregators on identifier strings:
`(x.isdigit(), x.zfill(10) if x.isdigit() else x)`. -/
def idSortKey (x : String) : Bool × String :=
  (pyIsDigit x, if pyIsDigit x then pyZfill x 10 else x)

/-- Python tuple `<` on identifier sort keys (`False < True`, then
string comparison). -/
def idKeyLt (a b : Bool × String) : Bool :=
  (¬ a.1 ∧ b.1) ∨ (a.1 = b.1 ∧ pyStrLt a.2 b.2)

/-- Non-strict ascending precedence of identifier strings under the
aggregators' sort key; `sorted` is stable for ties. -/
def aggIdRel (a b : String) : Prop := idKeyLt (idSortKey b) (idSortKey a) = false

instance : DecidableRel aggIdRel := fun _ _ => instDecidableEqBool _ _

/-- Non-strict descending precedence of shot times (`reverse=True` sort
on `_time_sort_key`). -/
def shotTimeRel (a b : String) : Prop := timeKeyLt (timeSortKey a) (timeSortKey b) = false

instance : DecidableRel shotTimeRel := fun _ _ => instDecidableEqBool _ _

instance {ε α : Type} [DecidableEq ε] [DecidableEq α] : DecidableEq (Except ε α) := fun a b =>
  match a, b with
  | .ok x, .ok y => decidable_of_iff (x = y) (by simp)
  | .ok _, .error _ => isFalse (by simp)
  | .error _, .ok _ => isFalse (by simp)
  | .error x, .error y => decidable_of_iff (x = y) (by simp)

/-- Decimal digit characters of a natural number. -/
def natDigitChars (n : ℕ) : List Char :=
  (Nat.toDigits 10 n)

/-- Python `str(int)`. -/
def intRepr (n : ℤ) : String :=
  if n < 0 then String.mk ('-' :: natDigitChars n.natAbs)
  else String.mk (natDigitChars n.natAbs)

/-- Fractional decimal digits of a rational in `[0, 1)`, at most `fuel`
digits. -/
def fracDigitChars : ℚ → ℕ → List Char
  | _, 0 => []
  | r, fuel + 1 =>
    if r = 0 then []
    else
      let r10 := r * 10
      let d := ⌊r10⌋
      Char.ofNat (48 + d.toNat) :: fracDigitChars (r10 - (d : ℚ)) fuel

/-- Rendering of a nonnegative finite float value in positional decimal
notation. -/
def ratReprPos (q : ℚ) : String :=
  let ip := ⌊q⌋
  let ds := fracDigitChars (q - (ip : ℚ)) 17
  intRepr ip ++ "." ++ (if ds.isEmpty then "0" else String.mk ds)

/-- Python `str(float)`.  Model simplification: finite values are
rendered as their exact positional decimal expansion (capped at 17
fractional digits) rather than CPython's shortest round-tripping repr
with scientific notation; the two agree on the short decimal literals
exercised by the theorems below. -/
def floatRepr : PyFloat → String
  | .inf => "inf"
  | .neginf => "-inf"
  | .nan => "nan"
  | .finite q => if q < 0 then "-" ++ ratReprPos (-q) else ratReprPos q

/-- Python `str` on a parsed value. -/
def pyStrOfVal : PyVal → String
  | .vInt n => intRepr n
  | .vFloat f => floatRepr f

-- sanity checks of the derivation and rendering model
example : decimalAndIntegerScores (some (.vFloat (.finite (11/2)))) (some (.vInt 0)) true
    = .ok (some (.vFloat (.finite (11/2))), some 5) := by decide
example : decimalAndIntegerScores (some (.vFloat (.finite (11/2)))) (some (.vInt 3)) true
    = .ok (some (.vFloat (.finite (11/2))), some 3) := by decide
example : decimalAndIntegerScores (some (.vInt 8)) (some (.vFloat (.finite (9/4)))) false
    = .ok (some (.vFloat (.finite (9/4))), some 8) := by decide
example : columnHasDecimals [["5.5"], ["2"]] 0 = .ok true := by decide
example : columnHasDecimals [["5"], ["x"]] 0 = .ok false := by decide
example : columnHasDecimals [["inf"]] 0
    = .error (.overflowError "cannot convert float infinity to integer") := by decide
example : columnHasDecimals [["nan"]] 0 = .ok false := by decide
example : pyStrOfVal (.vInt 5) = "5" := by decide
example : pyStrOfVal (.vInt (-12)) = "-12" := by decide
example : pyStrOfVal (.vFloat (.finite (11/2))) = "5.5" := by decide
example : pyStrOfVal (.vFloat (.finite 5)) = "5.0" := by decide
example : pyStrOfVal (.vFloat (.finite (-9/4))) = "-2.25" := by decide
example : pyZfill "10" 10 = "0000000010" := by decide
example : pyIsDigit "10" = true := by decide
example : pyIsDigit "abc" = false := by decide
example : idKeyLt (idSortKey "abc") (idSortKey "1") = true := by decide
example : timeKeyLt (timeSortKey "12.5") (timeSortKey "bad") = true := by decide
example : timeKeyLt (timeSortKey "12.5") (timeSortKey "20.0") = true := by decide

/-- Lookup in an insertion-ordered association list (Python `dict`
access). -/
def alookup {β : Type} : List (String × β) → String → Option β
  | [], _ => none
  | (k, v) :: rest, key => if k = key then some v else alookup rest key

/-- Python `defaultdict` access-and-update `d[key] = f(d[key])`: update
in place if the key exists, else append `(key, f dflt)` at the end
(dicts preserve insertion order). -/
def amodify {β : Type} (l : List (String × β)) (key : String) (dflt : β) (f : β → β) :
    List (String × β) :=
  match l with
  | [] => [(key, f dflt)]
  | (k, v) :: rest => if k = key then (k, f v) :: rest else (k, v) :: amodify rest key dflt f

/-- Python `d[k] = v` on an insertion-ordered dict. -/
def dictInsert {β : Type} : List (String × β) → String → β → List (String × β)
  | [], k, v => [(k, v)]
  | (k2, v2) :: rest, k, v => if k2 = k then (k2, v) :: rest else (k2, v2) :: dictInsert rest k v

/-- Python `d[k] = f(d[k])` for a key that is present (the aggregators
only modify keys they initialised; a missing key would be a `KeyError`
and is unreachable there). -/
def dictModify {β : Type} : List (String × β) → String → (β → β) → List (String × β)
  | [], _, _ => []
  | (k2, v) :: rest, k, f => if k2 = k then (k2, f v) :: rest else (k2, v) :: dictModify rest k f

/-- Parsed primary cell of a row:
`_parse_value(row[primary_idx]) if primary_idx < len(row) else None`. -/
def rowPrimaryVal (primaryIdx : ℕ) (row : List String) : Option PyVal :=
  if primaryIdx < row.length then pyParseValue (row.getD primaryIdx "") else none

/-- Parsed secondary cell of a row, `None` when the secondary column is
unresolved or out of range. -/
def rowSecondaryVal (secondaryIdx : Option ℕ) (row : List String) : Option PyVal :=
  match secondaryIdx with
  | some si => if si < row.length then pyParseValue (row.getD si "") else none
  | none => none

/-- Stripped time cell of a row, `""` when the time column is
unresolved or out of range. -/
def rowTimeVal (timeIdx : Option ℕ) (row : List String) : String :=
  match timeIdx with
  | some ti => if ti < row.length then pyStrip (row.getD ti "") else ""
  | none => ""

/-- Python `str(v) if v is not None else ""`. -/
def optValStr : Option PyVal → String
  | some v => pyStrOfVal v
  | none => ""

/-- Per-identifier accumulator of `summarize_decimal_integer`. -/
structure DIRec where
  count : ℕ
  decimalSum : ℚ
  decimalN : ℕ
  integerSum : ℤ
  integerN : ℕ
deriving DecidableEq

/-- Fresh accumulator of `summarize_decimal_integer`'s `defaultdict`. -/
def diRec0 : DIRec := ⟨0, 0, 0, 0, 0⟩

/-- One row's contribution to a `summarize_decimal_integer` accumulator:
`count` always increments; each defined derived score feeds its sum and
its defined-value counter. -/
def diStep (dec : Option PyVal) (intg : Option ℤ) (r : DIRec) : DIRec :=
  let r1 : DIRec := { r with count := r.count + 1 }
  let r2 : DIRec :=
    match dec with
    | some d => { r1 with decimalSum := r1.decimalSum + pyValToQ d, decimalN := r1.decimalN + 1 }
    | none => r1
  match intg with
  | some i => { r2 with integerSum := r2.integerSum + i, integerN := r2.integerN + 1 }
  | none => r2

/-- Parsed primary and secondary cells of a row
(`_parse_value(row[idx])` guarded by row length). -/
def diRowVals (primaryIdx : ℕ) (secondaryIdx : Option ℕ) (row : List String) :
    Option PyVal × Option PyVal :=
  (rowPrimaryVal primaryIdx row, rowSecondaryVal secondaryIdx row)

/-- Row loop of `summarize_decimal_integer`: skip rows with an absent or
blank identifier cell, derive scores, update the per-identifier
accumulator. -/
def diProcess (idIdx primaryIdx : ℕ) (secondaryIdx : Option ℕ) (pid : Bool) :
    List (List String) → List (String × DIRec) → Except PyError (List (String × DIRec))
  | [], acc => .ok acc
  | row :: rest, acc =>
    if row.length ≤ idIdx then diProcess idIdx primaryIdx secondaryIdx pid rest acc
    else
      let idVal := pyStrip (row.getD idIdx "")
      if idVal = "" then diProcess idIdx primaryIdx secondaryIdx pid rest acc
      else
        let vals := diRowVals primaryIdx secondaryIdx row
        match decimalAndIntegerScores vals.1 vals.2 pid with
        | .error e => .error e
        | .ok scores =>
          diProcess idIdx primaryIdx secondaryIdx pid rest
            (amodify acc idVal diRec0 (diStep scores.1 scores.2))

/-- Output record of `summarize_decimal_integer`. -/
structure DIOut where
  id : String
  count : ℕ
  decimalScoreSum : Option ℚ
  decimalScoreMean : Option ℚ
  integerScoreSum : Option ℤ
  integerScoreMean : Option ℚ
deriving DecidableEq

/-- Output record for one identifier: sums/means are `none` (not zero)
when no defined value was seen; means divide by the defined-value
count; 4-digit rounding on the float quantities. -/
def diOutOf (k : String) (r : DIRec) : DIOut :=
  { id := k
    count := r.count
    decimalScoreSum := if r.decimalN ≠ 0 then some (pyRoundQ4 r.decimalSum) else none
    decimalScoreMean :=
      if r.decimalN ≠ 0 then some (pyRoundQ4 (r.decimalSum / (r.decimalN : ℚ))) else none
    integerScoreSum := if r.integerN ≠ 0 then some r.integerSum else none
    integerScoreMean :=
      if r.integerN ≠ 0 then some (pyRoundQ4 ((r.integerSum : ℚ) / (r.integerN : ℚ))) else none }

/-- Secondary-column resolution shared by `summarize_decimal_integer`
and `get_shots_for_start_nr`: skipped for a `None` or falsy (empty)
column name. -/
def diSecondaryIdx (headers : List String) (secondaryColumn : Option String) : Option ℕ :=
  match secondaryColumn with
  | none => none
  | some s => if s = "" then none else headers.findIdx? (· = s)

/-- Embedding of `summarize_decimal_integer` (sius_csv.py). -/
def summarizeDecimalInteger (headers : List String) (rows : List (List String))
    (idColumn primaryColumn : String) (secondaryColumn : Option String) :
    Except PyError (List DIOut) :=
  let idIdx := headers.findIdx? (· = idColumn)
  let primaryIdx := headers.findIdx? (· = primaryColumn)
  let secondaryIdx := diSecondaryIdx headers secondaryColumn
  match idIdx, primaryIdx with
  | some ii, some pi2 =>
    match columnHasDecimals rows pi2 with
    | .error e => .error e
    | .ok pid =>
      match diProcess ii pi2 secondaryIdx pid rows [] with
      | .error e => .error e
      | .ok acc =>
        let sortedKeys := List.insertionSort aggIdRel (acc.map Prod.fst)
        .ok (sortedKeys.map fun k => diOutOf k ((alookup acc k).getD diRec0))
  | _, _ => .ok []

/-- Per-identifier accumulator of `summarize_by_id`: overall row count,
per-column float sums, per-column lists of defined values. -/
structure ByRec where
  count : ℕ
  sums : List (String × ℚ)
  values : List (String × List PyVal)
deriving DecidableEq

/-- Fresh `summarize_by_id` accumulator: sums and value lists
initialised for each matched score column. -/
def byRec0 (scoreIdxs : List (ℕ × String)) : ByRec :=
  { count := 0
    sums := scoreIdxs.foldl (fun d p => dictInsert d p.2 0) []
    values := scoreIdxs.foldl (fun d p => dictInsert d p.2 []) [] }

/-- One row's contribution to a `summarize_by_id` accumulator. -/
def byStep (scoreIdxs : List (ℕ × String)) (row : List String) (r : ByRec) : ByRec :=
  let r1 : ByRec := { r with count := r.count + 1 }
  scoreIdxs.foldl
    (fun r p =>
      let v := if p.1 < row.length then pyParseValue (row.getD p.1 "") else none
      match v with
      | some v2 =>
        { r with
          sums := dictModify r.sums p.2 (· + pyValToQ v2)
          values := dictModify r.values p.2 (· ++ [v2]) }
      | none => r)
    r1

/-- Row loop of `summarize_by_id`. -/
def byProcess (idIdx : ℕ) (scoreIdxs : List (ℕ × String)) :
    List (List String) → List (String × ByRec) → List (String × ByRec)
  | [], acc => acc
  | row :: rest, acc =>
    if row.length ≤ idIdx then byProcess idIdx scoreIdxs rest acc
    else
      let idVal := pyStrip (row.getD idIdx "")
      if idVal = "" then byProcess idIdx scoreIdxs rest acc
      else byProcess idIdx scoreIdxs rest (amodify acc idVal (byRec0 scoreIdxs) (byStep scoreIdxs row))

/-- Output record of `summarize_by_id`: per requested score column, the
always-present rounded sum and the mean (`none` when no defined
values). -/
structure ByIdOut where
  id : String
  count : ℕ
  scores : List (String × ℚ × Option ℚ)
deriving DecidableEq

/-- Per-column `(sum, mean)` emission of `summarize_by_id`: iterates the
requested column names; a name missing from the accumulator dicts would
raise `KeyError`. -/
def byOutScores (scoreColumns : List String) (r : ByRec) :
    Except PyError (List (String × ℚ × Option ℚ)) :=
  match scoreColumns with
  | [] => .ok []
  | c :: rest =>
    match alookup r.sums c, alookup r.values c with
    | some s, some vs =>
      match byOutScores rest r with
      | .error e => .error e
      | .ok tail =>
        .ok ((c, pyRoundQ4 s,
          if vs.length ≠ 0 then some (pyRoundQ4 (s / (vs.length : ℚ))) else none) :: tail)
    | _, _ => .error (.keyError c)

/-- Result loop of `summarize_by_id`: one output record per sorted
identifier; a raised `KeyError` aborts the whole call. -/
def byEmit (acc : List (String × ByRec)) (scoreColumns : List String)
    (scoreIdxs : List (ℕ × String)) : List String → Except PyError (List ByIdOut)
  | [] => .ok []
  | k :: ks =>
    let r := (alookup acc k).getD (byRec0 scoreIdxs)
    match byOutScores scoreColumns r with
    | .error e => .error e
    | .ok sc =>
      match byEmit acc scoreColumns scoreIdxs ks with
      | .error e => .error e
      | .ok tail => .ok (⟨k, r.count, sc⟩ :: tail)

/-- Embedding of `summarize_by_id` (sius_csv.py). -/
def summarizeById (headers : List String) (rows : List (List String))
    (idColumn : String) (scoreColumns : List String) : Except PyError (List ByIdOut) :=
  match headers.findIdx? (· = idColumn) with
  | none => .ok []
  | some ii =>
    let scoreIdxs := headers.enum.filter fun p => p.2 ∈ scoreColumns
    if scoreIdxs = [] then .ok []
    else
      let acc := byProcess ii scoreIdxs rows []
      byEmit acc scoreColumns scoreIdxs (List.insertionSort aggIdRel (acc.map Prod.fst))

-- sanity checks of the aggregators
example :
    summarizeById ["id", "s"] [["10", "1"], ["2", "1"], ["abc", "1"], ["1", "1"]] "id" ["s"]
      = .ok [⟨"abc", 1, [("s", 1, some 1)]⟩, ⟨"1", 1, [("s", 1, some 1)]⟩,
          ⟨"2", 1, [("s", 1, some 1)]⟩, ⟨"10", 1, [("s", 1, some 1)]⟩] := by decide
example :
    summarizeById ["id", "s"] [["a", "x"]] "id" ["s"]
      = .ok [⟨"a", 1, [("s", 0, none)]⟩] := by decide
example :
    summarizeDecimalInteger ["id", "p", "s"] [["1", "5.5", "0"], ["1", "4.5", "3"], ["", "9", "9"]]
      "id" "p" (some "s")
      = .ok [⟨"1", 2, some 10, some 5, some 8, some 4⟩] := by decide
example :
    summarizeDecimalInteger ["id", "p"] [["1", "x"]] "id" "p"
      none = .ok [⟨"1", 1, none, none, none, none⟩] := by decide
example : summarizeDecimalInteger ["id", "p"] [["1", "2"]] "nosuch" "p" none = .ok [] := by decide

/-- One ShotRecord of `get_shots_for_start_nr`: the row's position in
the (already filtered) input sequence, the stripped time cell, the
`str()` rendering of the parsed primary/secondary values, and the
derived scores (decimal rounded to 4 digits). -/
structure Shot where
  index : ℕ
  time : String
  primaryScore : String
  secondaryScore : String
  decimalScore : Option PyVal
  integerScore : Option ℤ
deriving DecidableEq

/-- Row loop of `get_shots_for_start_nr`: emit one `Shot` per row whose
stripped identifier cell equals the stripped target, numbering rows
from `idx`. -/
def buildShots (idIdx primaryIdx : ℕ) (secondaryIdx timeIdx : Option ℕ) (pid : Bool)
    (target : String) : ℕ → List (List String) → Except PyError (List Shot)
  | _, [] => .ok []
  | idx, row :: rest =>
    if row.length ≤ idIdx ∨ pyStrip (row.getD idIdx "") ≠ target then
      buildShots idIdx primaryIdx secondaryIdx timeIdx pid target (idx + 1) rest
    else
      match decimalAndIntegerScores (rowPrimaryVal primaryIdx row)
          (rowSecondaryVal secondaryIdx row) pid with
      | .error e => .error e
      | .ok scores =>
        let shot : Shot :=
          { index := idx
            time := rowTimeVal timeIdx row
            primaryScore := optValStr (rowPrimaryVal primaryIdx row)
            secondaryScore := optValStr (rowSecondaryVal secondaryIdx row)
            decimalScore := scores.1.map pyRound4Val
            integerScore := scores.2 }
        match buildShots idIdx primaryIdx secondaryIdx timeIdx pid target (idx + 1) rest with
        | .error e => .error e
        | .ok tail => .ok (shot :: tail)

/-- Embedding of `get_shots_for_start_nr` (sius_csv.py): resolve
columns, run the per-column dominance test, build the matching shots
and stable-sort them descending by `_time_sort_key`. -/
def getShotsForStartNr (headers : List String) (rows : List (List String))
    (idColumn primaryColumn : String) (secondaryColumn : Option String)
    (timeColumn startNrVal : String) : Except PyError (List Shot) :=
  let idIdx := headers.findIdx? (· = idColumn)
  let primaryIdx := headers.findIdx? (· = primaryColumn)
  let secondaryIdx := diSecondaryIdx headers secondaryColumn
  let timeIdx := headers.findIdx? (· = timeColumn)
  match idIdx, primaryIdx with
  | some ii, some pi2 =>
    match columnHasDecimals rows pi2 with
    | .error e => .error e
    | .ok pid =>
      match buildShots ii pi2 secondaryIdx timeIdx pid (pyStrip startNrVal) 0 rows with
      | .error e => .error e
      | .ok shots => .ok (List.insertionSort (fun a b => shotTimeRel a.time b.time) shots)
  | _, _ => .ok []

/-- Embedding of `_normalize_header` (sius_csv.py) and the identical
`_normalize` (sius_fields.py): strip, lowercase, remove spaces,
underscores and hyphens. -/
def normalizeHeader (name : String) : String :=
  String.mk (((stripChars name.toList).map Char.toLower).filter
    fun c => ¬ (c = ' ' ∨ c = '_' ∨ c = '-'))

/-- Python `sub in s` (contiguous substring test). -/
def strContains (s sub : String) : Bool :=
  (List.range (s.toList.length + 1)).any fun i => sub.toList.isPrefixOf (s.toList.drop i)

/-- SIUS identifier-column aliases from sius_csv.py (compared against
normalized header names). -/
def SIUS_ID_ALIASES : List String :=
  ["start number", "startnumber", "start_no", "id", "competitor", "shooter"]

/-- SIUS score-column aliases from sius_csv.py. -/
def SIUS_SCORE_ALIASES : List String :=
  ["decimal score", "decimalscore", "score", "decimal", "points", "inner ten", "innerten"]

/-- Score-column loop of `infer_column_types`: per remaining header,
score-hint match, alias/substring match, else the all-sampled-cells
numeric fallback over the first 50 rows. -/
def scoreColsLoop (idCols scoreHintSet : List String) (rows : List (List String)) :
    List (ℕ × String) → List String
  | [] => []
  | (i, h) :: rest =>
    if h ∈ idCols then scoreColsLoop idCols scoreHintSet rows rest
    else if scoreHintSet ≠ [] ∧ normalizeHeader h ∈ scoreHintSet then
      h :: scoreColsLoop idCols scoreHintSet rows rest
    else if normalizeHeader h ∈ SIUS_SCORE_ALIASES ∨ strContains (normalizeHeader h) "score"
        ∨ strContains (normalizeHeader h) "decimal" then
      h :: scoreColsLoop idCols scoreHintSet rows rest
    else
      let sample := (rows.take 50).map fun row => if i < row.length then row.getD i "" else ""
      if (sample.filter (· ≠ "")).all isNumericStr then
        h :: scoreColsLoop idCols scoreHintSet rows rest
      else scoreColsLoop idCols scoreHintSet rows rest

/-- Embedding of `infer_column_types` (sius_csv.py). -/
def inferColumnTypes (headers : List String) (rows : List (List String))
    (idHint : Option String) (scoreHints : Option (List String)) :
    List String × List String :=
  if headers = [] ∨ rows = [] then ([], [])
  else
    let enum := headers.enum
    let idCols1 : List String :=
      match idHint with
      | some hint =>
        if hint = "" then []
        else
          match enum.find? (fun p =>
              normalizeHeader p.2 = normalizeHeader hint ∨ hint = p.2 ∨ hint = toString p.1) with
          | some p => [p.2]
          | none => []
      | none => []
    let idCols2 :=
      if idCols1 = [] then
        match enum.find? (fun p =>
            normalizeHeader p.2 ∈ SIUS_ID_ALIASES ∨ strContains (normalizeHeader p.2) "start") with
        | some p => [p.2]
        | none => []
      else idCols1
    let idCols := if idCols2 = [] then [headers.headD ""] else idCols2
    let scoreHintSet : List String :=
      match scoreHints with
      | some hs => if hs = [] then [] else hs.map normalizeHeader
      | none => []
    (idCols, scoreColsLoop idCols scoreHintSet rows enum)

/-- Canonical SIUS field names (sius_fields.py). -/
def START_NR : String := "Start NR"

/-- Canonical primary-score field name (sius_fields.py). -/
def PRIMARY_SCORE : String := "Primary score"

/-- Canonical secondary-score field name (sius_fields.py). -/
def SECONDARY_SCORE : String := "Secondary score"

/-- Start-NR header aliases (sius_fields.py, already normalized
forms). -/
def START_NR_ALIASES : List String := ["startnr", "startnumber", "start_no", "startno"]

/-- Primary-score header aliases (sius_fields.py). -/
def PRIMARY_SCORE_ALIASES : List String :=
  ["primaryscore", "decimalscore", "decimal score", "primary score"]

/-- Secondary-score header aliases (sius_fields.py). -/
def SECONDARY_SCORE_ALIASES : List String := ["secondaryscore", "secondary score"]

/-- Embedding of `match_csv_header_to_field` (sius_fields.py): exact
normalized match first, then the alias fallbacks for the three
canonical fields. -/
def matchCsvHeaderToField (csvHeaders : List String) (targetField : String) : Option String :=
  let targetNorm := normalizeHeader targetField
  match csvHeaders.find? (fun h => normalizeHeader h = targetNorm) with
  | some h => some h
  | none =>
    let r1 :=
      if targetNorm = normalizeHeader START_NR then
        csvHeaders.find? (fun h => normalizeHeader h ∈ START_NR_ALIASES)
      else none
    match r1 with
    | some h => some h
    | none =>
      let r2 :=
        if targetNorm = normalizeHeader PRIMARY_SCORE then
          csvHeaders.find? (fun h => normalizeHeader h ∈ PRIMARY_SCORE_ALIASES
            ∨ (strContains (normalizeHeader h) "decimal" ∧ strContains (normalizeHeader h) "score"))
        else none
      match r2 with
      | some h => some h
      | none =>
        if targetNorm = normalizeHeader SECONDARY_SCORE then
          csvHeaders.find? (fun h => normalizeHeader h ∈ SECONDARY_SCORE_ALIASES)
        else none

/-- Result of `suggest_columns` (sius_fields.py). -/
structure Suggested where
  startNr : Option String
  primaryScore : Option String
  secondaryScore : Option String
deriving DecidableEq

/-- Embedding of `suggest_columns` (sius_fields.py): alias matching for
the three canonical fields, with first-column fallback for Start NR
when the match is falsy and headers exist. -/
def suggestColumns (csvHeaders : List String) : Suggested :=
  let s0 := matchCsvHeaderToField csvHeaders START_NR
  let startNr :=
    match s0 with
    | none => if csvHeaders ≠ [] then some (csvHeaders.headD "") else none
    | some x =>
      if x = "" then (if csvHeaders ≠ [] then some (csvHeaders.headD "") else some "")
      else some x
  { startNr := startNr
    primaryScore := matchCsvHeaderToField csvHeaders PRIMARY_SCORE
    secondaryScore := matchCsvHeaderToField csvHeaders SECONDARY_SCORE }

/-- Embedding of `_column_index` (app_web.py): `headers.index(name)` or
`None`. -/
def columnIndex (headers : List String) (name : String) : Option ℕ :=
  headers.findIdx? (· = name)

/-- Relay filter stage of the web endpoints: applied only when a
non-empty relay filter is given and the Relay column exists. -/
def relayStage (relayFilter : Option String) (relayIdx : Option ℕ)
    (rows : List (List String)) : List (List String) :=
  match relayFilter, relayIdx with
  | some rf, some ri =>
    if rf = "" then rows
    else rows.filter fun r => ri < r.length ∧ pyStrip (r.getD ri "") = rf
  | _, _ => rows

/-- Identifier allow-list stage: a present-but-empty allow-list empties
the row set; a present allow-list keeps rows whose stripped Start NR
cell is listed; `None` applies no filtering.  Requires the Start NR
column to exist. -/
def allowStage (startNrsFilter : Option (List String)) (startNrIdx : Option ℕ)
    (rows : List (List String)) : List (List String) :=
  match startNrsFilter, startNrIdx with
  | some fl, some si =>
    if fl = [] then []
    else rows.filter fun r => si < r.length ∧ pyStrip (r.getD si "") ∈ fl
  | _, _ => rows

/-- Excluded-row-positions stage: drops the rows at the given positions
of the already-filtered sequence (no-op for an empty set). -/
def excludeStage (excludedIndices : List ℕ) (rows : List (List String)) :
    List (List String) :=
  if excludedIndices = [] then rows
  else (rows.enum.filter fun p => p.1 ∉ excludedIndices).map Prod.snd

/-- The shared filter pipeline of the `summary`, `shots` and
`target-data` endpoints (app_web.py): relay filter, then identifier
allow-list, then excluded positions. -/
def applyShotFilters (relayFilter : Option String) (startNrsFilter : Option (List String))
    (excludedIndices : List ℕ) (relayIdx startNrIdx : Option ℕ)
    (rows : List (List String)) : List (List String) :=
  excludeStage excludedIndices (allowStage startNrsFilter startNrIdx (relayStage relayFilter relayIdx rows))

/-- Python `str(e)` for the embedded exceptions. -/
def pyErrorMessage : PyError → String
  | .valueError m => m
  | .overflowError m => m
  | .keyError k => "\x27" ++ k ++ "\x27"

/-- Embedding of the `summary` endpoint core (app_web.py): upload check,
column suggestion, hard failure when no primary-score column resolves,
filter pipeline, then `summarize_decimal_integer` with caught Python
exceptions surfaced as error strings. -/
def summaryCore (headers : List String) (rows : List (List String))
    (relayFilter : Option String) (startNrsFilter : Option (List String))
    (excludedIndices : List ℕ) : Except String (List DIOut) :=
  if headers = [] ∨ rows = [] then .error "Upload a file first"
  else
    let suggested := suggestColumns headers
    let startNrColumn :=
      match suggested.startNr with
      | none => headers.headD ""
      | some x => if x = "" then headers.headD "" else x
    match suggested.primaryScore with
    | none => .error "No Primary score column in SIUSFields"
    | some pcol =>
      if pcol = "" then .error "No Primary score column in SIUSFields"
      else
      let rows2 := applyShotFilters relayFilter startNrsFilter excludedIndices
        (columnIndex headers "Relay") (columnIndex headers "Start NR") rows
      match summarizeDecimalInteger headers rows2 startNrColumn pcol
          suggested.secondaryScore with
      | .error e => .error (pyErrorMessage e)
      | .ok result => .ok result

-- sanity checks of shots, inference, suggestion and the pipeline
example :
    (getShotsForStartNr ["id", "p", "t"] [["1", "1", "12.5"], ["1", "2", "bad"], ["1", "3", "20.0"]]
        "id" "p" none "t" "1").map (List.map Shot.time)
      = .ok ["bad", "20.0", "12.5"] := by decide
example :
    getShotsForStartNr ["id", "p", "t"] [["1", "05", "1"]] "id" "p" none "t" "1"
      = .ok [⟨0, "1", "5", "", none, some 5⟩] := by decide
example :
    (inferColumnTypes ["Start NR", "mystery"] [["1", ""], ["2", ""]] none none)
      = (["Start NR"], ["mystery"]) := by decide
example : suggestColumns ["a", "Decimal score"] = ⟨some "a", some "Decimal score", none⟩ := by
  decide
example : suggestColumns ["a", "b"] = ⟨some "a", none, none⟩ := by decide
example :
    summaryCore ["a", "b"] [["1", "2"]] none none [] = .error "No Primary score column in SIUSFields" := by
  decide
example :
    summaryCore ["Start NR", "Primary score"] [["7", "3"]] none none []
      = .ok [⟨"7", 1, none, none, some 3, some 3⟩] := by decide
example : allowStage (some []) (some 0) [["1"]] = [] := by decide
example : excludeStage [1] [["a"], ["b"], ["c"]] = [["a"], ["c"]] := by decide

/-- Updating a key and then looking it up yields the updated value. -/
theorem alookup_amodify_self {β : Type} (l : List (String × β)) (k : String) (d : β) (f : β → β) :
    alookup (amodify l k d f) k = some (f ((alookup l k).getD d)) := by
  induction l with
  | nil => simp [amodify, alookup]
  | cons p rest ih =>
    by_cases h : p.1 = k
    · simp [amodify, alookup, h]
    · simp [amodify, alookup, h, ih]

/-- Updating one key leaves lookups of other keys unchanged. -/
theorem alookup_amodify_ne {β : Type} (l : List (String × β)) (k k2 : String) (d : β) (f : β → β)
    (h : k2 ≠ k) : alookup (amodify l k d f) k2 = alookup l k2 := by
  induction l with
  | nil => simp [amodify, alookup, Ne.symm h]
  | cons p rest ih =>
    by_cases hp : p.1 = k
    · subst hp
      simp only [amodify, if_pos rfl, alookup]
      rw [if_neg (Ne.symm h), if_neg (Ne.symm h)]
    · simp only [amodify, if_neg hp, alookup]
      by_cases hk2 : p.1 = k2
      · simp [hk2]
      · simp [hk2, ih]

/-- Key sequence after an update: unchanged if the key was present, else
the key appended. -/
theorem keys_amodify {β : Type} (l : List (String × β)) (k : String) (d : β) (f : β → β) :
    (amodify l k d f).map Prod.fst =
      if (alookup l k).isSome then l.map Prod.fst else l.map Prod.fst ++ [k] := by
  induction l with
  | nil => simp [amodify, alookup]
  | cons p rest ih =>
    by_cases h : p.1 = k
    · simp [amodify, alookup, h]
    · simp only [amodify, if_neg h, List.map_cons, alookup, ih]
      by_cases h2 : (alookup rest k).isSome <;> simp [h, h2]

/-- A key is absent from the key sequence exactly when its lookup fails. -/
theorem alookup_eq_none_iff {β : Type} (l : List (String × β)) (k : String) :
    alookup l k = none ↔ k ∉ l.map Prod.fst := by
  induction l with
  | nil => simp [alookup]
  | cons p rest ih =>
    by_cases h : p.1 = k
    · simp [alookup, h]
    · have h2 : ¬ k = p.1 := fun e => h e.symm
      simp [alookup, h, ih, h2]

/-- Updates preserve distinctness of the keys. -/
theorem nodup_keys_amodify {β : Type} (l : List (String × β)) (k : String) (d : β) (f : β → β)
    (h : (l.map Prod.fst).Nodup) : ((amodify l k d f).map Prod.fst).Nodup := by
  rw [keys_amodify]
  by_cases hs : (alookup l k).isSome
  · simpa [hs] using h
  · have hnone : alookup l k = none := by
      cases hv : alookup l k
      · rfl
      · simp [hv] at hs
    have hk : k ∉ l.map Prod.fst := (alookup_eq_none_iff l k).mp hnone
    simp only [hs, if_false]
    exact List.Nodup.append h (List.nodup_singleton k) (by simpa using hk)

/-- Effect of an update on the multiset of values, as seen through a
measure `g` that the update increments by one from a zero default. -/
theorem sum_map_amodify {β : Type} (g : β → ℕ) (l : List (String × β)) (k : String) (d : β)
    (f : β → β) (hf : ∀ v, g (f v) = g v + 1) (hd : g d = 0) :
    ((amodify l k d f).map fun p => g p.2).sum = ((l.map fun p => g p.2).sum) + 1 := by
  induction l with
  | nil => simp [amodify, hf, hd]
  | cons p rest ih =>
    by_cases h : p.1 = k
    · simp only [amodify, if_pos h, List.map_cons, List.sum_cons, hf]
      omega
    · simp only [amodify, if_neg h, List.map_cons, List.sum_cons, ih]
      omega

/-- Looking up each key of an association list with distinct keys reads
back the associated values in order. -/
theorem map_alookup_keys {β γ : Type} (g : β → γ) (d : β) :
    ∀ l : List (String × β), (l.map Prod.fst).Nodup →
      ((l.map Prod.fst).map fun k => g ((alookup l k).getD d)) = l.map fun p => g p.2 := by
  intro l
  induction l with
  | nil => simp
  | cons p rest ih =>
    intro hnd
    simp only [List.map_cons, List.nodup_cons] at hnd ⊢
    rw [List.cons.injEq]
    refine ⟨by simp [alookup], ?_⟩
    have hrest : ∀ k ∈ rest.map Prod.fst, alookup (p :: rest) k = alookup rest k := by
      intro k hk
      have : p.1 ≠ k := fun e => hnd.1 (e ▸ hk)
      simp [alookup, this]
    calc (rest.map Prod.fst).map (fun k => g ((alookup (p :: rest) k).getD d))
        = (rest.map Prod.fst).map fun k => g ((alookup rest k).getD d) := by
          apply List.map_congr_left
          intro k hk
          rw [hrest k hk]
      _ = rest.map fun p => g p.2 := ih hnd.2

/-- Row guard shared by the aggregators: the identifier cell exists and
is non-blank after trimming. -/
def rowPasses (idIdx : ℕ) (row : List String) : Bool :=
  decide (idIdx < row.length) && (pyStrip (row.getD idIdx "") != "")

/-- The `diStep` update always increments the overall row count. -/
theorem diStep_count (dec : Option PyVal) (intg : Option ℤ) (r : DIRec) :
    (diStep dec intg r).count = r.count + 1 := by
  cases dec <;> cases intg <;> rfl

/-- An undefined derived decimal leaves the defined-decimal counter
unchanged. -/
theorem diStep_decimalN_none (intg : Option ℤ) (r : DIRec) :
    (diStep none intg r).decimalN = r.decimalN := by
  cases intg <;> rfl

/-- An undefined derived integer leaves the defined-integer counter
unchanged. -/
theorem diStep_integerN_none (dec : Option PyVal) (r : DIRec) :
    (diStep dec none r).integerN = r.integerN := by
  cases dec <;> rfl

/-- Summary invariants of the `summarize_decimal_integer` row loop on a
success: total `count` grows by the number of passing rows, key
distinctness is preserved, and no blank key is ever created. -/
theorem diProcess_ok_props (ii pi2 : ℕ) (si : Option ℕ) (pid : Bool) :
    ∀ (rows : List (List String)) (acc acc2 : List (String × DIRec)),
      diProcess ii pi2 si pid rows acc = .ok acc2 →
      ((acc2.map fun p => p.2.count).sum
          = (acc.map fun p => p.2.count).sum + rows.countP (rowPasses ii))
        ∧ ((acc.map Prod.fst).Nodup → (acc2.map Prod.fst).Nodup)
        ∧ ((∀ k ∈ acc.map Prod.fst, k ≠ "") → ∀ k ∈ acc2.map Prod.fst, k ≠ "") := by
  intro rows
  induction rows with
  | nil =>
    intro acc acc2 h
    simp only [diProcess] at h
    cases h
    simp
  | cons row rest ih =>
    intro acc acc2 h
    simp only [diProcess] at h
    by_cases hlen : row.length ≤ ii
    · rw [if_pos hlen] at h
      have hp : rowPasses ii row = false := by
        simp [rowPasses, Nat.not_lt.mpr hlen]
      obtain ⟨h1, h2, h3⟩ := ih acc acc2 h
      refine ⟨?_, h2, h3⟩
      rw [h1, List.countP_cons, hp]
      simp
    · rw [if_neg hlen] at h
      by_cases hblank : pyStrip (row.getD ii "") = ""
      · rw [if_pos hblank] at h
        have hp : rowPasses ii row = false := by
          unfold rowPasses
          rw [hblank]
          simp
        obtain ⟨h1, h2, h3⟩ := ih acc acc2 h
        refine ⟨?_, h2, h3⟩
        rw [h1, List.countP_cons, hp]
        simp
      · rw [if_neg hblank] at h
        have hp : rowPasses ii row = true := by
          unfold rowPasses
          simp only [Bool.and_eq_true, decide_eq_true_eq, bne_iff_ne, ne_eq]
          exact ⟨Nat.lt_of_not_le hlen, hblank⟩
        cases hder : decimalAndIntegerScores (diRowVals pi2 si row).1 (diRowVals pi2 si row).2 pid with
        | error e => rw [hder] at h; cases h
        | ok scores =>
          rw [hder] at h
          set acc1 := amodify acc (pyStrip (row.getD ii "")) diRec0 (diStep scores.1 scores.2)
            with hacc1
          obtain ⟨h1, h2, h3⟩ := ih acc1 acc2 h
          refine ⟨?_, ?_, ?_⟩
          · rw [h1, List.countP_cons, hp, hacc1,
              sum_map_amodify (fun r => r.count) acc _ _ _ (diStep_count scores.1 scores.2) rfl]
            simp
            omega
          · intro hnd
            exact h2 (nodup_keys_amodify _ _ _ _ hnd)
          · intro hne
            apply h3
            intro k hk
            rw [hacc1, keys_amodify] at hk
            by_cases hsome : (alookup acc (pyStrip (row.getD ii ""))).isSome
            · rw [if_pos hsome] at hk
              exact hne k hk
            · rw [if_neg hsome] at hk
              rcases List.mem_append.mp hk with hk1 | hk2
              · exact hne k hk1
              · simp only [List.mem_singleton] at hk2
                subst hk2
                exact hblank

/-- The per-column fold of `byStep` never touches the row count. -/
theorem byStep_fold_count (row : List String) :
    ∀ (l : List (ℕ × String)) (r0 : ByRec),
      (l.foldl
        (fun r p =>
          let v := if p.1 < row.length then pyParseValue (row.getD p.1 "") else none
          match v with
          | some v2 =>
            { r with
              sums := dictModify r.sums p.2 (· + pyValToQ v2)
              values := dictModify r.values p.2 (· ++ [v2]) }
          | none => r)
        r0).count = r0.count := by
  intro l
  induction l with
  | nil => intro r0; rfl
  | cons p rest ih =>
    intro r0
    simp only [List.foldl_cons]
    rw [ih]
    cases hv : (if p.1 < row.length then pyParseValue (row.getD p.1 "") else none) <;> simp [hv]

/-- The `byStep` update always increments the overall row count. -/
theorem byStep_count (si : List (ℕ × String)) (row : List String) (r : ByRec) :
    (byStep si row r).count = r.count + 1 := by
  unfold byStep
  rw [byStep_fold_count]

/-- Summary invariants of the `summarize_by_id` row loop: total `count`
grows by the number of passing rows, key distinctness is preserved, and
no blank key is ever created. -/
theorem byProcess_props (ii : ℕ) (si : List (ℕ × String)) :
    ∀ (rows : List (List String)) (acc : List (String × ByRec)),
      (((byProcess ii si rows acc).map fun p => p.2.count).sum
          = (acc.map fun p => p.2.count).sum + rows.countP (rowPasses ii))
        ∧ ((acc.map Prod.fst).Nodup → ((byProcess ii si rows acc).map Prod.fst).Nodup)
        ∧ ((∀ k ∈ acc.map Prod.fst, k ≠ "") →
            ∀ k ∈ (byProcess ii si rows acc).map Prod.fst, k ≠ "") := by
  intro rows
  induction rows with
  | nil =>
    intro acc
    simp [byProcess]
  | cons row rest ih =>
    intro acc
    simp only [byProcess]
    by_cases hlen : row.length ≤ ii
    · rw [if_pos hlen]
      have hp : rowPasses ii row = false := by
        simp [rowPasses, Nat.not_lt.mpr hlen]
      obtain ⟨h1, h2, h3⟩ := ih acc
      refine ⟨?_, h2, h3⟩
      rw [h1, List.countP_cons, hp]
      simp
    · rw [if_neg hlen]
      by_cases hblank : pyStrip (row.getD ii "") = ""
      · rw [if_pos hblank]
        have hp : rowPasses ii row = false := by
          unfold rowPasses
          rw [hblank]
          simp
        obtain ⟨h1, h2, h3⟩ := ih acc
        refine ⟨?_, h2, h3⟩
        rw [h1, List.countP_cons, hp]
        simp
      · rw [if_neg hblank]
        have hp : rowPasses ii row = true := by
          unfold rowPasses
          simp only [Bool.and_eq_true, decide_eq_true_eq, bne_iff_ne, ne_eq]
          exact ⟨Nat.lt_of_not_le hlen, hblank⟩
        set acc1 := amodify acc (pyStrip (row.getD ii "")) (byRec0 si) (byStep si row)
          with hacc1
        obtain ⟨h1, h2, h3⟩ := ih acc1
        refine ⟨?_, ?_, ?_⟩
        · rw [h1, List.countP_cons, hp, hacc1,
            sum_map_amodify (fun r => r.count) acc _ _ _ (byStep_count si row) rfl]
          simp
          omega
        · intro hnd
          exact h2 (nodup_keys_amodify _ _ _ _ hnd)
        · intro hne
          apply h3
          intro k hk
          rw [hacc1, keys_amodify] at hk
          by_cases hsome : (alookup acc (pyStrip (row.getD ii ""))).isSome
          · rw [if_pos hsome] at hk
            exact hne k hk
          · rw [if_neg hsome] at hk
            rcases List.mem_append.mp hk with hk1 | hk2
            · exact hne k hk1
            · simp only [List.mem_singleton] at hk2
              subst hk2
              exact hblank

/-- A successful `byEmit` emits exactly the given keys in order, with
each record's `count` read from the accumulator. -/
theorem byEmit_ok (acc : List (String × ByRec)) (scoreColumns : List String)
    (scoreIdxs : List (ℕ × String)) :
    ∀ (ks : List String) (out : List ByIdOut),
      byEmit acc scoreColumns scoreIdxs ks = .ok out →
      out.map ByIdOut.id = ks
        ∧ out.map ByIdOut.count
          = ks.map fun k => ((alookup acc k).getD (byRec0 scoreIdxs)).count := by
  intro ks
  induction ks with
  | nil =>
    intro out h
    simp only [byEmit] at h
    cases h
    simp
  | cons k rest ih =>
    intro out h
    simp only [byEmit] at h
    cases hsc : byOutScores scoreColumns ((alookup acc k).getD (byRec0 scoreIdxs)) with
    | error e => rw [hsc] at h; cases h
    | ok sc =>
      rw [hsc] at h
      cases htail : byEmit acc scoreColumns scoreIdxs rest with
      | error e => rw [htail] at h; cases h
      | ok tail =>
        rw [htail] at h
        cases h
        obtain ⟨ih1, ih2⟩ := ih tail htail
        simp [ih1, ih2]

/-- `dictModify` leaves other keys' lookups unchanged. -/
theorem alookup_dictModify_ne {β : Type} (l : List (String × β)) (k k2 : String) (f : β → β)
    (h : k2 ≠ k) : alookup (dictModify l k f) k2 = alookup l k2 := by
  induction l with
  | nil => simp [dictModify, alookup]
  | cons p rest ih =>
    by_cases hp : p.1 = k
    · subst hp
      simp only [dictModify, if_pos rfl, alookup]
      rw [if_neg (Ne.symm h), if_neg (Ne.symm h)]
    · simp only [dictModify, if_neg hp, alookup]
      by_cases hk2 : p.1 = k2 <;> simp [hk2, ih]

/-- A successful lookup exhibits a matching pair of the list. -/
theorem alookup_mem {β : Type} : ∀ (l : List (String × β)) (k : String) (v : β),
    alookup l k = some v → (k, v) ∈ l := by
  intro l
  induction l with
  | nil => intro k v h; simp [alookup] at h
  | cons p rest ih =>
    intro k v h
    by_cases hp : p.1 = k
    · rw [alookup, if_pos hp] at h
      cases h
      have : (k, p.2) = p := by
        rw [← hp]
      rw [this]
      exact List.mem_cons_self p rest
    · rw [alookup, if_neg hp] at h
      exact List.mem_cons_of_mem _ (ih k v h)

/-- Inserting the constant `v0` into a dict whose values are all `v0`
keeps all values `v0`. -/
theorem dictInsert_const {β : Type} (v0 : β) :
    ∀ (l : List (String × β)) (k : String), (∀ p ∈ l, p.2 = v0) →
      ∀ p ∈ dictInsert l k v0, p.2 = v0 := by
  intro l
  induction l with
  | nil =>
    intro k _ p hp
    simp only [dictInsert, List.mem_singleton] at hp
    rw [hp]
  | cons q rest ih =>
    intro k hall p hp
    simp only [dictInsert] at hp
    by_cases hq : q.1 = k
    · rw [if_pos hq] at hp
      rcases List.mem_cons.mp hp with h1 | h2
      · rw [h1]
      · exact hall p (List.mem_cons_of_mem _ h2)
    · rw [if_neg hq] at hp
      rcases List.mem_cons.mp hp with h1 | h2
      · exact hall p (h1 ▸ List.mem_cons_self q rest)
      · exact ih k (fun p hp => hall p (List.mem_cons_of_mem _ hp)) p h2

/-- All values of a fold of constant `dictInsert`s are that constant. -/
theorem foldl_dictInsert_const {β : Type} (v0 : β) (si : List (ℕ × String)) :
    ∀ p ∈ si.foldl (fun d q => dictInsert d q.2 v0) [], p.2 = v0 := by
  suffices h : ∀ (si : List (ℕ × String)) (init : List (String × β)),
      (∀ p ∈ init, p.2 = v0) → ∀ p ∈ si.foldl (fun d q => dictInsert d q.2 v0) init, p.2 = v0 by
    exact h si [] (by simp)
  intro si
  induction si with
  | nil => intro init h p hp; exact h p hp
  | cons q rest ih =>
    intro init h p hp
    exact ih (dictInsert init q.2 v0) (dictInsert_const v0 init q.2 h) p hp

/-- Every sum slot of a fresh `summarize_by_id` accumulator is zero. -/
theorem byRec0_sums_zero (si : List (ℕ × String)) (c : String) (s : ℚ)
    (h : alookup (byRec0 si).sums c = some s) : s = 0 :=
  foldl_dictInsert_const 0 si (c, s) (alookup_mem _ c s h)

/-- Every value-list slot of a fresh `summarize_by_id` accumulator is
empty. -/
theorem byRec0_values_nil (si : List (ℕ × String)) (c : String) (vs : List PyVal)
    (h : alookup (byRec0 si).values c = some vs) : vs = [] :=
  foldl_dictInsert_const [] si (c, vs) (alookup_mem _ c vs h)

/-- Generic row-loop invariant of `summarize_decimal_integer`: a measure
of the accumulator record that no passing row of identifier `k` can
increase stays zero at key `k`. -/
theorem diProcess_measure_zero (ii pi2 : ℕ) (si : Option ℕ) (pid : Bool) (k : String)
    (g : DIRec → ℕ) (hg0 : g diRec0 = 0) :
    ∀ (rows : List (List String)),
      (∀ row ∈ rows, rowPasses ii row = true → pyStrip (row.getD ii "") = k →
        ∀ res, decimalAndIntegerScores (diRowVals pi2 si row).1 (diRowVals pi2 si row).2 pid
          = .ok res → ∀ r, g (diStep res.1 res.2 r) = g r) →
      ∀ acc acc2, diProcess ii pi2 si pid rows acc = .ok acc2 →
        (∀ r, alookup acc k = some r → g r = 0) →
        ∀ r, alookup acc2 k = some r → g r = 0 := by
  intro rows
  induction rows with
  | nil =>
    intro _ acc acc2 h hinv
    simp only [diProcess] at h
    cases h
    exact hinv
  | cons row rest ih =>
    intro hrow acc acc2 h hinv
    have hrest : ∀ row ∈ rest, rowPasses ii row = true → pyStrip (row.getD ii "") = k →
        ∀ res, decimalAndIntegerScores (diRowVals pi2 si row).1 (diRowVals pi2 si row).2 pid
          = .ok res → ∀ r, g (diStep res.1 res.2 r) = g r :=
      fun r hr => hrow r (List.mem_cons_of_mem _ hr)
    simp only [diProcess] at h
    by_cases hlen : row.length ≤ ii
    · rw [if_pos hlen] at h
      exact ih hrest acc acc2 h hinv
    · rw [if_neg hlen] at h
      by_cases hblank : pyStrip (row.getD ii "") = ""
      · rw [if_pos hblank] at h
        exact ih hrest acc acc2 h hinv
      · rw [if_neg hblank] at h
        cases hder : decimalAndIntegerScores (diRowVals pi2 si row).1 (diRowVals pi2 si row).2 pid with
        | error e => rw [hder] at h; cases h
        | ok scores =>
          rw [hder] at h
          refine ih hrest _ acc2 h ?_
          intro r hr
          by_cases hid : pyStrip (row.getD ii "") = k
          · rw [hid, alookup_amodify_self] at hr
            cases hr
            have hpass : rowPasses ii row = true := by
              unfold rowPasses
              simp only [Bool.and_eq_true, decide_eq_true_eq, bne_iff_ne, ne_eq]
              exact ⟨Nat.lt_of_not_le hlen, hblank⟩
            rw [hrow row (List.mem_cons_self row rest) hpass hid scores hder]
            cases hv : alookup acc k with
            | none => simpa [hv] using hg0
            | some r0 => simpa [hv] using hinv r0 hv
          · rw [alookup_amodify_ne _ _ _ _ _ (fun e => hid e.symm)] at hr
            exact hinv r hr

/-- Per-column invariant of one `byStep`: when every matched position of
column `c` in the row is unparseable, the column's sum slot and value
list are unchanged. -/
theorem byStep_col_preserve (c : String) (row : List String) :
    ∀ (si : List (ℕ × String)), (∀ p ∈ si, p.2 = c →
        (if p.1 < row.length then pyParseValue (row.getD p.1 "") else none) = none) →
      ∀ r : ByRec,
        alookup (byStep si row r).sums c = alookup r.sums c
          ∧ alookup (byStep si row r).values c = alookup r.values c := by
  intro si
  have main : ∀ (l : List (ℕ × String)), (∀ p ∈ l, p.2 = c →
      (if p.1 < row.length then pyParseValue (row.getD p.1 "") else none) = none) →
      ∀ r0 : ByRec,
        alookup (l.foldl
          (fun r p =>
            let v := if p.1 < row.length then pyParseValue (row.getD p.1 "") else none
            match v with
            | some v2 =>
              { r with
                sums := dictModify r.sums p.2 (· + pyValToQ v2)
                values := dictModify r.values p.2 (· ++ [v2]) }
            | none => r) r0).sums c = alookup r0.sums c
        ∧ alookup (l.foldl
          (fun r p =>
            let v := if p.1 < row.length then pyParseValue (row.getD p.1 "") else none
            match v with
            | some v2 =>
              { r with
                sums := dictModify r.sums p.2 (· + pyValToQ v2)
                values := dictModify r.values p.2 (· ++ [v2]) }
            | none => r) r0).values c = alookup r0.values c := by
    intro l
    induction l with
    | nil => intro _ r0; exact ⟨rfl, rfl⟩
    | cons p rest ih =>
      intro hall r0
      have hrest := fun q hq => hall q (List.mem_cons_of_mem _ hq)
      simp only [List.foldl_cons]
      cases hv : (if p.1 < row.length then pyParseValue (row.getD p.1 "") else none) with
      | none => exact ih hrest r0
      | some v2 =>
        have hpc : p.2 ≠ c := by
          intro hpc
          rw [hall p (List.mem_cons_self p rest) hpc] at hv
          cases hv
        obtain ⟨ihs, ihv⟩ := ih hrest
          { r0 with
            sums := dictModify r0.sums p.2 (· + pyValToQ v2)
            values := dictModify r0.values p.2 (· ++ [v2]) }
        exact ⟨ihs.trans (alookup_dictModify_ne _ _ _ _ (Ne.symm hpc)),
          ihv.trans (alookup_dictModify_ne _ _ _ _ (Ne.symm hpc))⟩
  intro hall r
  unfold byStep
  exact main si hall { r with count := r.count + 1 }

/-- Row-loop invariant of `summarize_by_id` for identifier `k` and
column `c`: when no passing row of identifier `k` carries a parseable
value at any matched position of `c`, the column's sum slot stays zero
and its value list stays empty at key `k`. -/
theorem byProcess_col_zero (ii : ℕ) (si : List (ℕ × String)) (k c : String) :
    ∀ (rows : List (List String)),
      (∀ row ∈ rows, rowPasses ii row = true → pyStrip (row.getD ii "") = k →
        ∀ p ∈ si, p.2 = c →
          (if p.1 < row.length then pyParseValue (row.getD p.1 "") else none) = none) →
      ∀ acc,
        (∀ r, alookup acc k = some r →
          (∀ s, alookup r.sums c = some s → s = 0)
            ∧ ∀ vs, alookup r.values c = some vs → vs = []) →
        ∀ r, alookup (byProcess ii si rows acc) k = some r →
          (∀ s, alookup r.sums c = some s → s = 0)
            ∧ ∀ vs, alookup r.values c = some vs → vs = [] := by
  intro rows
  induction rows with
  | nil =>
    intro _ acc hinv
    simpa [byProcess] using hinv
  | cons row rest ih =>
    intro hrow acc hinv
    have hrest := fun r hr => hrow r (List.mem_cons_of_mem _ hr)
    simp only [byProcess]
    by_cases hlen : row.length ≤ ii
    · rw [if_pos hlen]
      exact ih hrest acc hinv
    · rw [if_neg hlen]
      by_cases hblank : pyStrip (row.getD ii "") = ""
      · rw [if_pos hblank]
        exact ih hrest acc hinv
      · rw [if_neg hblank]
        refine ih hrest _ ?_
        intro r hr
        by_cases hid : pyStrip (row.getD ii "") = k
        · rw [hid, alookup_amodify_self] at hr
          cases hr
          have hpass : rowPasses ii row = true := by
            unfold rowPasses
            simp only [Bool.and_eq_true, decide_eq_true_eq, bne_iff_ne, ne_eq]
            exact ⟨Nat.lt_of_not_le hlen, hblank⟩
          have hcells := hrow row (List.mem_cons_self row rest) hpass hid
          obtain ⟨hps, hpv⟩ := byStep_col_preserve c row si hcells
            ((alookup acc k).getD (byRec0 si))
          cases hv : alookup acc k with
          | none =>
            rw [hv] at hps hpv
            simp only [Option.getD_none] at hps hpv
            exact ⟨fun s hs => byRec0_sums_zero si c s (hps ▸ hs),
              fun vs hvs => byRec0_values_nil si c vs (hpv ▸ hvs)⟩
          | some r0 =>
            rw [hv] at hps hpv
            simp only [Option.getD_some] at hps hpv
            obtain ⟨h1, h2⟩ := hinv r0 hv
            exact ⟨fun s hs => h1 s (hps ▸ hs), fun vs hvs => h2 vs (hpv ▸ hvs)⟩
        · rw [alookup_amodify_ne _ _ _ _ _ (fun e => hid e.symm)] at hr
          exact hinv r hr

/-- Characters with equal code points are equal. -/
theorem char_eq_of_toNat_eq {a b : Char} (h : a.toNat = b.toNat) : a = b :=
  Char.ext (UInt32.ext h)

/-- Strict code-point comparison of character lists is transitive. -/
theorem charListLt_trans : ∀ a b c : List Char,
    charListLt a b = true → charListLt b c = true → charListLt a c = true := by
  intro a
  induction a with
  | nil =>
    intro b c hab hbc
    cases c with
    | nil =>
      cases b with
      | nil => cases hab
      | cons y ys => cases hbc
    | cons z zs => rfl
  | cons x xs ih =>
    intro b c hab hbc
    cases b with
    | nil => cases hab
    | cons y ys =>
      cases c with
      | nil => cases hbc
      | cons z zs =>
        simp only [charListLt] at hab hbc ⊢
        by_cases hxy : x.toNat < y.toNat
        · by_cases hyz : y.toNat < z.toNat
          · rw [if_pos (Nat.lt_trans hxy hyz)]
          · rw [if_neg hyz] at hbc
            by_cases hzy : z.toNat < y.toNat
            · rw [if_pos hzy] at hbc
              cases hbc
            · rw [if_neg hzy] at hbc
              have : y.toNat = z.toNat := by omega
              rw [if_pos (this ▸ hxy)]
        · rw [if_neg hxy] at hab
          by_cases hyx : y.toNat < x.toNat
          · rw [if_pos hyx] at hab
            cases hab
          · rw [if_neg hyx] at hab
            have hxyeq : x.toNat = y.toNat := by omega
            by_cases hyz : y.toNat < z.toNat
            · rw [if_pos (hxyeq ▸ hyz)]
            · rw [if_neg hyz] at hbc
              by_cases hzy : z.toNat < y.toNat
              · rw [if_pos hzy] at hbc
                cases hbc
              · rw [if_neg hzy] at hbc
                rw [if_neg (hxyeq ▸ hyz), if_neg (fun h => hzy (hxyeq ▸ h))]
                exact ih ys zs hab hbc

/-- Trichotomy for code-point comparison: not-less means greater or
equal. -/
theorem charListLt_trichotomy : ∀ a b : List Char,
    charListLt a b = false → charListLt b a = true ∨ a = b := by
  intro a
  induction a with
  | nil =>
    intro b hab
    cases b with
    | nil => right; rfl
    | cons y ys => cases hab
  | cons x xs ih =>
    intro b hab
    cases b with
    | nil => left; rfl
    | cons y ys =>
      simp only [charListLt] at hab ⊢
      by_cases hxy : x.toNat < y.toNat
      · rw [if_pos hxy] at hab
        cases hab
      · rw [if_neg hxy] at hab
        by_cases hyx : y.toNat < x.toNat
        · left
          rw [if_pos hyx]
        · rw [if_neg hyx] at hab
          have hxyeq : x.toNat = y.toNat := by omega
          rcases ih ys hab with h1 | h2
          · left
            rw [if_neg hyx, if_neg hxy]
            exact h1
          · right
            rw [char_eq_of_toNat_eq hxyeq, h2]

/-- The non-strict code-point order is transitive. -/
theorem charListLt_neg_trans {a b c : List Char}
    (hab : charListLt a b = false) (hbc : charListLt b c = false) :
    charListLt a c = false := by
  cases hac : charListLt a c with
  | false => rfl
  | true =>
    rcases charListLt_trichotomy a b hab with h1 | h2
    · have := charListLt_trans b a c h1 hac
      rw [this] at hbc
      cases hbc
    · rw [h2] at hac
      rw [hac] at hbc
      cases hbc

/-- Python float `<` is asymmetric. -/
theorem pyFloatLt_asymm : ∀ f g : PyFloat, pyFloatLt f g = true → pyFloatLt g f = false := by
  intro f g h
  cases f <;> cases g <;> simp_all [pyFloatLt]
  exact le_of_lt h

/-- Python float non-strict `≥` is transitive when the middle value is
not NaN. -/
theorem pyFloatLt_neg_trans : ∀ fa fb fc : PyFloat, fb ≠ PyFloat.nan →
    pyFloatLt fa fb = false → pyFloatLt fb fc = false → pyFloatLt fa fc = false := by
  intro fa fb fc hb hab hbc
  cases fa <;> cases fb <;> cases fc <;> simp_all [pyFloatLt]
  linarith

/-- Strict code-point comparison is irreflexive. -/
theorem charListLt_irrefl : ∀ l : List Char, charListLt l l = false := by
  intro l
  induction l with
  | nil => rfl
  | cons x xs ih =>
    simp only [charListLt]
    rw [if_neg (Nat.lt_irrefl x.toNat), if_neg (Nat.lt_irrefl x.toNat)]
    exact ih

/-- Strict code-point comparison is asymmetric. -/
theorem charListLt_asymm {a b : List Char} (h : charListLt a b = true) :
    charListLt b a = false := by
  cases hba : charListLt b a with
  | false => rfl
  | true =>
    have := charListLt_trans a b a h hba
    rw [charListLt_irrefl a] at this
    cases this

/-- The time-key comparison is asymmetric. -/
theorem timeKeyLt_asymm : ∀ x y : PyFloat ⊕ String,
    timeKeyLt x y = true → timeKeyLt y x = false := by
  intro x y h
  cases x with
  | inl f =>
    cases y with
    | inl g => exact pyFloatLt_asymm f g h
    | inr s => rfl
  | inr s =>
    cases y with
    | inl g => cases h
    | inr t => exact charListLt_asymm h

/-- The non-strict (descending) time-key order is transitive when the
middle key is not a NaN float. -/
theorem timeKeyLt_neg_trans : ∀ x y z : PyFloat ⊕ String, y ≠ Sum.inl PyFloat.nan →
    timeKeyLt x y = false → timeKeyLt y z = false → timeKeyLt x z = false := by
  intro x y z hy hxy hyz
  cases x with
  | inl fa =>
    cases y with
    | inl fb =>
      cases z with
      | inl fc =>
        exact pyFloatLt_neg_trans fa fb fc (fun e => hy (by rw [e])) hxy hyz
      | inr sc => cases hyz
    | inr sb => cases hxy
  | inr sa =>
    cases z with
    | inl fc => rfl
    | inr sc =>
      cases y with
      | inl fb => simp [timeKeyLt] at hyz
      | inr sb => exact charListLt_neg_trans hxy hyz

/-- Inserting into a sorted list keeps it sorted, for a relation that is
total and transitive across a predicate holding on all elements
involved. -/
theorem sorted_orderedInsert_local {α : Type} (r : α → α → Prop) [DecidableRel r]
    (P : α → Prop) (htot : ∀ a b, r a b ∨ r b a)
    (htrans : ∀ a b c, P b → r a b → r b c → r a c) :
    ∀ (l : List α) (a : α), (∀ x ∈ l, P x) → l.Sorted r →
      (List.orderedInsert r a l).Sorted r := by
  intro l
  induction l with
  | nil =>
    intro a _ _
    simp [List.orderedInsert]
  | cons b l ih =>
    intro a hP hs
    rw [List.sorted_cons] at hs
    by_cases hab : r a b
    · rw [List.orderedInsert, if_pos hab, List.sorted_cons]
      refine ⟨?_, List.sorted_cons.mpr hs⟩
      intro x hx
      rcases List.mem_cons.mp hx with h1 | h2
      · rw [h1]; exact hab
      · exact htrans a b x (hP b (List.mem_cons_self b l)) hab (hs.1 x h2)
    · rw [List.orderedInsert, if_neg hab, List.sorted_cons]
      refine ⟨?_, ih a (fun x hx => hP x (List.mem_cons_of_mem _ hx)) hs.2⟩
      intro x hx
      rcases (List.mem_orderedInsert r).mp hx with h1 | h2
      · rw [h1]
        exact (htot a b).resolve_left hab
      · exact hs.1 x h2

/-- Insertion sort produces a sorted list, for a relation that is total
and transitive across a predicate holding on all list elements. -/
theorem sorted_insertionSort_local {α : Type} (r : α → α → Prop) [DecidableRel r]
    (P : α → Prop) (htot : ∀ a b, r a b ∨ r b a)
    (htrans : ∀ a b c, P b → r a b → r b c → r a c) :
    ∀ l : List α, (∀ x ∈ l, P x) → (List.insertionSort r l).Sorted r := by
  intro l
  induction l with
  | nil => intro _; simp [List.insertionSort]
  | cons a l ih =>
    intro hP
    rw [List.insertionSort]
    refine sorted_orderedInsert_local r P htot htrans _ a ?_
      (ih fun x hx => hP x (List.mem_cons_of_mem _ hx))
    intro x hx
    exact hP x (List.mem_cons_of_mem _ ((List.mem_insertionSort r).mp hx))

/-- Every shot that a successful `buildShots` run (numbering rows from
`k`) emits comes from a matching row at its recorded relative position,
and its fields are the row's stripped time, rendered parsed
primary/secondary values, and derived scores. -/
theorem buildShots_mem (ii pi2 : ℕ) (si ti : Option ℕ) (pid : Bool) (target : String) :
    ∀ (rows : List (List String)) (k : ℕ) (out : List Shot),
      buildShots ii pi2 si ti pid target k rows = .ok out →
      ∀ s ∈ out, ∃ j, j < rows.length ∧ s.index = k + j ∧
        ii < (rows.getD j []).length ∧
        pyStrip ((rows.getD j []).getD ii "") = target ∧
        s.time = rowTimeVal ti (rows.getD j []) ∧
        s.primaryScore = optValStr (rowPrimaryVal pi2 (rows.getD j [])) ∧
        s.secondaryScore = optValStr (rowSecondaryVal si (rows.getD j [])) ∧
        ∃ res, decimalAndIntegerScores (rowPrimaryVal pi2 (rows.getD j []))
            (rowSecondaryVal si (rows.getD j [])) pid = .ok res ∧
          s.decimalScore = res.1.map pyRound4Val ∧ s.integerScore = res.2 := by
  intro rows
  induction rows with
  | nil =>
    intro k out h s hs
    simp only [buildShots] at h
    cases h
    simp at hs
  | cons row rest ih =>
    intro k out h s hs
    simp only [buildShots] at h
    by_cases hskip : row.length ≤ ii ∨ pyStrip (row.getD ii "") ≠ target
    · rw [if_pos hskip] at h
      obtain ⟨j, hj, hidx, hrest⟩ := ih (k + 1) out h s hs
      refine ⟨j + 1, by simpa using hj, by omega, ?_⟩
      simpa using hrest
    · rw [if_neg hskip] at h
      push_neg at hskip
      cases hder : decimalAndIntegerScores (rowPrimaryVal pi2 row) (rowSecondaryVal si row) pid with
      | error e => rw [hder] at h; cases h
      | ok scores =>
        rw [hder] at h
        cases htail : buildShots ii pi2 si ti pid target (k + 1) rest with
        | error e => rw [htail] at h; cases h
        | ok tail =>
          rw [htail] at h
          cases h
          rcases List.mem_cons.mp hs with h1 | h2
          · subst h1
            refine ⟨0, by simp, by simp, by simpa using hskip.1, by simpa using hskip.2,
              by simp, by simp, by simp, scores, by simpa using hder, rfl, rfl⟩
          · obtain ⟨j, hj, hidx, hrest⟩ := ih (k + 1) tail htail s h2
            refine ⟨j + 1, by simpa using hj, by omega, ?_⟩
            simpa using hrest

/-- A header returned by `match_csv_header_to_field` is one of the given
headers. -/
theorem matchCsvHeaderToField_mem (csvHeaders : List String) (t h : String)
    (hm : matchCsvHeaderToField csvHeaders t = some h) : h ∈ csvHeaders := by
  unfold matchCsvHeaderToField at hm
  dsimp only at hm
  repeat' split at hm
  all_goals try (cases hm)
  all_goals
    first
      | exact List.mem_of_find?_eq_some (by assumption)
      | (rename_i heq
         rw [ite_eq_iff] at heq
         rcases heq with ⟨_, hfind⟩ | ⟨_, hnone⟩
         · exact List.mem_of_find?_eq_some hfind
         · cases hnone)

/-- The Start NR suggestion always resolves to one of the headers when
headers exist. -/
theorem suggestColumns_startNr_mem (csvHeaders : List String) (hne : csvHeaders ≠ []) :
    ∃ x, (suggestColumns csvHeaders).startNr = some x ∧ x ∈ csvHeaders := by
  unfold suggestColumns
  cases hs : matchCsvHeaderToField csvHeaders START_NR with
  | none =>
    refine ⟨csvHeaders.headD "", by simp [hne], ?_⟩
    cases csvHeaders with
    | nil => exact absurd rfl hne
    | cons a l => exact List.mem_cons_self a l
  | some x =>
    by_cases hx : x = ""
    · refine ⟨csvHeaders.headD "", by simp [hx, hne], ?_⟩
      cases csvHeaders with
      | nil => exact absurd rfl hne
      | cons a l => exact List.mem_cons_self a l
    · exact ⟨x, by simp [hx], matchCsvHeaderToField_mem csvHeaders START_NR x hs⟩

/-- A remaining (non-identifier) column whose sampled cells are all
blank is always collected by the score-column loop, whichever branch
applies. -/
theorem scoreColsLoop_mem (idCols scoreHintSet : List String) (rows : List (List String)) :
    ∀ (enum : List (ℕ × String)) (i : ℕ) (h : String), (i, h) ∈ enum → h ∉ idCols →
      (∀ row ∈ rows.take 50, row.getD i "" = "") →
      h ∈ scoreColsLoop idCols scoreHintSet rows enum := by
  intro enum
  induction enum with
  | nil =>
    intro i h hmem
    simp at hmem
  | cons p rest ih =>
    intro i h hmem hid hsample
    rcases List.mem_cons.mp hmem with h1 | h2
    · rw [← h1]
      simp only [scoreColsLoop]
      rw [if_neg hid]
      by_cases c1 : scoreHintSet ≠ [] ∧ normalizeHeader h ∈ scoreHintSet
      · rw [if_pos c1]
        exact List.mem_cons_self h _
      · rw [if_neg c1]
        by_cases c2 : normalizeHeader h ∈ SIUS_SCORE_ALIASES
            ∨ strContains (normalizeHeader h) "score" = true
            ∨ strContains (normalizeHeader h) "decimal" = true
        · rw [if_pos c2]
          exact List.mem_cons_self h _
        · rw [if_neg c2]
          have hsampleall : (((rows.take 50).map fun row =>
              if i < row.length then row.getD i "" else "").filter (· ≠ "")) = [] := by
            rw [List.filter_eq_nil_iff]
            intro a ha
            obtain ⟨row, hrow, hcell⟩ := List.mem_map.mp ha
            have hae : a = "" := by
              rw [← hcell]
              by_cases hlt : i < row.length
              · rw [if_pos hlt]
                exact hsample row hrow
              · rw [if_neg hlt]
            simp [hae]
          rw [hsampleall]
          simp only [List.all_nil, if_pos rfl]
          exact List.mem_cons_self h _
    · have := ih i h h2 hid hsample
      simp only [scoreColsLoop]
      split
      · exact this
      all_goals
        first
          | exact List.mem_cons_of_mem _ this
          | (split
             · exact List.mem_cons_of_mem _ this
             · (first
                 | exact this
                 | (split
                    · exact List.mem_cons_of_mem _ this
                    · split
                      · exact List.mem_cons_of_mem _ this
                      · exact this)))

/-- Finite parsed values (everything `_parse_value` can produce in this
model). -/
def valFinite : PyVal → Bool
  | .vInt _ => true
  | .vFloat (.finite _) => true
  | .vFloat _ => false

/-- Truncation toward zero is the identity on integers. -/
theorem pyTruncQ_intCast (n : ℤ) : pyTruncQ (n : ℚ) = n := by
  unfold pyTruncQ
  by_cases h : (n : ℚ) < 0
  · rw [if_pos h]
    rw [show (-(n : ℚ)) = ((-n : ℤ) : ℚ) by push_cast; ring, Int.floor_intCast]
    ring
  · rw [if_neg h, Int.floor_intCast]

/-- On finite values, `int()` succeeds and truncates toward zero. -/
theorem pyValToIntTrunc_finite (v : PyVal) (h : valFinite v = true) :
    pyValToIntTrunc v = .ok (pyTruncQ (pyValToQ v)) := by
  cases v with
  | vInt n => simp [pyValToIntTrunc, pyValToQ, pyTruncQ_intCast]
  | vFloat f =>
    cases f with
    | finite q => rfl
    | inf => cases h
    | neginf => cases h
    | nan => cases h

/-- On finite values, `math.floor` succeeds and takes the floor. -/
theorem pyValFloor_finite (v : PyVal) (h : valFinite v = true) :
    pyValFloor v = .ok ⌊pyValToQ v⌋ := by
  cases v with
  | vInt n => simp [pyValFloor, pyValToQ, Int.floor_intCast]
  | vFloat f =>
    cases f with
    | finite q => rfl
    | inf => cases h
    | neginf => cases h
    | nan => cases h

/-- The excluded-positions stage always equals position-filtering over
the already-filtered sequence (also for the empty no-op set). -/
theorem excludeStage_eq (exc : List ℕ) (rows : List (List String)) :
    excludeStage exc rows = (rows.enum.filter fun p => p.1 ∉ exc).map Prod.snd := by
  unfold excludeStage
  by_cases h : exc = []
  · rw [if_pos h]
    subst h
    rw [List.filter_eq_self.mpr, List.enum_map_snd]
    intro a _
    simp
  · rw [if_neg h]

/-- C1: with `primary_is_decimal` true, the derived decimal score equals
the parsed primary value, and the derived integer score is the
secondary truncated toward zero when the secondary is defined and
nonzero, else the floor of the primary when defined, else undefined;
with `primary_is_decimal` false, the integer score is the primary
converted to an integer and the decimal score is the secondary
unmodified; in particular `(true, 5.5, 0) ↦ (5.5, 5)`,
`(true, 5.5, 3) ↦ integer 3`, and `(false, 8, 2.25) ↦ (2.25, 8)`. -/
theorem claim_C1_score_derivation (p s : Option PyVal)
    (hp : ∀ v ∈ p, valFinite v = true) (hs : ∀ v ∈ s, valFinite v = true) :
    (∀ res, decimalAndIntegerScores p s true = .ok res → res.1 = p)
    ∧ (∀ sv, s = some sv → pyValIsZero sv = false →
        decimalAndIntegerScores p s true = .ok (p, some (pyTruncQ (pyValToQ sv))))
    ∧ ((s = none ∨ ∃ sv, s = some sv ∧ pyValIsZero sv = true) →
        ∀ pv, p = some pv →
          decimalAndIntegerScores p s true = .ok (p, some ⌊pyValToQ pv⌋))
    ∧ ((s = none ∨ ∃ sv, s = some sv ∧ pyValIsZero sv = true) → p = none →
        decimalAndIntegerScores p s true = .ok (none, none))
    ∧ (∀ pv, p = some pv →
        decimalAndIntegerScores p s false = .ok (s, some (pyTruncQ (pyValToQ pv))))
    ∧ (p = none → decimalAndIntegerScores p s false = .ok (s, none))
    ∧ decimalAndIntegerScores (some (.vFloat (.finite (11/2)))) (some (.vInt 0)) true
        = .ok (some (.vFloat (.finite (11/2))), some 5)
    ∧ decimalAndIntegerScores (some (.vFloat (.finite (11/2)))) (some (.vInt 3)) true
        = .ok (some (.vFloat (.finite (11/2))), some 3)
    ∧ decimalAndIntegerScores (some (.vInt 8)) (some (.vFloat (.finite (9/4)))) false
        = .ok (some (.vFloat (.finite (9/4))), some 8) := by
  refine ⟨?_, ?_, ?_, ?_, ?_, ?_, by decide, by decide, by decide⟩
  · intro res hres
    cases s with
    | none =>
      cases p with
      | none =>
        simp only [decimalAndIntegerScores] at hres
        cases hres
        rfl
      | some pv =>
        simp only [decimalAndIntegerScores] at hres
        cases hf : pyValFloor pv with
        | ok i => rw [hf] at hres; cases hres; rfl
        | error e => rw [hf] at hres; cases hres
    | some sv =>
      cases p with
      | none =>
        simp only [decimalAndIntegerScores] at hres
        by_cases hz : pyValIsZero sv = true
        · rw [if_pos hz] at hres
          cases hres
          rfl
        · rw [if_neg hz] at hres
          cases ht : pyValToIntTrunc sv with
          | ok i => rw [ht] at hres; cases hres; rfl
          | error e => rw [ht] at hres; cases hres
      | some pv =>
        simp only [decimalAndIntegerScores] at hres
        by_cases hz : pyValIsZero sv = true
        · rw [if_pos hz] at hres
          cases hf : pyValFloor pv with
          | ok i => rw [hf] at hres; cases hres; rfl
          | error e => rw [hf] at hres; cases hres
        · rw [if_neg hz] at hres
          cases ht : pyValToIntTrunc sv with
          | ok i => rw [ht] at hres; cases hres; rfl
          | error e => rw [ht] at hres; cases hres
  · intro sv hsv hz
    subst hsv
    have hfin : valFinite sv = true := hs sv rfl
    simp only [decimalAndIntegerScores, hz, if_neg (by simp [hz] : ¬ pyValIsZero sv = true)]
    rw [pyValToIntTrunc_finite sv hfin]
    simp
  · intro hzero pv hpv
    subst hpv
    have hfin : valFinite pv = true := hp pv rfl
    rcases hzero with hnone | ⟨sv, hsv, hz⟩
    · subst hnone
      simp only [decimalAndIntegerScores]
      rw [pyValFloor_finite pv hfin]
      simp
    · subst hsv
      simp only [decimalAndIntegerScores, if_pos hz]
      rw [pyValFloor_finite pv hfin]
      simp
  · intro hzero hpnone
    subst hpnone
    rcases hzero with hnone | ⟨sv, hsv, hz⟩
    · subst hnone
      rfl
    · subst hsv
      simp only [decimalAndIntegerScores, if_pos hz]
      simp
  · intro pv hpv
    subst hpv
    have hfin : valFinite pv = true := hp pv rfl
    simp only [decimalAndIntegerScores]
    rw [pyValToIntTrunc_finite pv hfin]
    simp
  · intro hpnone
    subst hpnone
    rfl

/-- Witness for C1 at the spec's own example inputs. -/
theorem claim_C1_score_derivation_witness :
    decimalAndIntegerScores (some (.vFloat (.finite (11/2)))) (some (.vInt 0)) true
      = .ok (some (.vFloat (.finite (11/2))), some 5) :=
  (claim_C1_score_derivation (some (.vFloat (.finite (11/2)))) (some (.vInt 0))
    (by intro v hv; cases hv; rfl) (by intro v hv; cases hv; rfl)).2.2.2.2.2.2.1

/-- Structure of a successful `summarize_decimal_integer` run with
resolved columns: the dominance flag, the accumulator, and the sorted
emission. -/
theorem summarizeDI_ok_elim (headers : List String) (rows : List (List String))
    (idColumn primaryColumn : String) (secondaryColumn : Option String)
    (ii pi2 : ℕ) (out : List DIOut)
    (h1 : headers.findIdx? (· = idColumn) = some ii)
    (h2 : headers.findIdx? (· = primaryColumn) = some pi2)
    (hok : summarizeDecimalInteger headers rows idColumn primaryColumn secondaryColumn
      = .ok out) :
    ∃ pid acc, columnHasDecimals rows pi2 = .ok pid
      ∧ diProcess ii pi2 (diSecondaryIdx headers secondaryColumn) pid rows [] = .ok acc
      ∧ out = (List.insertionSort aggIdRel (acc.map Prod.fst)).map
          fun k => diOutOf k ((alookup acc k).getD diRec0) := by
  unfold summarizeDecimalInteger at hok
  rw [h1, h2] at hok
  simp only [] at hok
  cases hpid : columnHasDecimals rows pi2 with
  | error e =>
    simp only [hpid] at hok
    exact Except.noConfusion hok
  | ok pid =>
    simp only [hpid] at hok
    cases hproc : diProcess ii pi2 (diSecondaryIdx headers secondaryColumn) pid rows [] with
    | error e =>
      simp only [hproc] at hok
      exact Except.noConfusion hok
    | ok acc =>
      simp only [hproc] at hok
      exact ⟨pid, acc, rfl, hproc, (Except.ok.inj hok).symm⟩

/-- Structure of a successful `summarize_by_id` run with a resolved
identifier column and at least one matched score column. -/
theorem summarizeById_ok_elim (headers : List String) (rows : List (List String))
    (idColumn : String) (scoreColumns : List String) (jj : ℕ) (out2 : List ByIdOut)
    (h3 : headers.findIdx? (· = idColumn) = some jj)
    (hne : headers.enum.filter (fun p => p.2 ∈ scoreColumns) ≠ [])
    (hok2 : summarizeById headers rows idColumn scoreColumns = .ok out2) :
    byEmit (byProcess jj (headers.enum.filter fun p => p.2 ∈ scoreColumns) rows [])
        scoreColumns (headers.enum.filter fun p => p.2 ∈ scoreColumns)
        (List.insertionSort aggIdRel
          ((byProcess jj (headers.enum.filter fun p => p.2 ∈ scoreColumns) rows []).map
            Prod.fst))
      = .ok out2 := by
  unfold summarizeById at hok2
  rw [h3] at hok2
  simp only [] at hok2
  rw [if_neg hne] at hok2
  exact hok2

/-- C2 (failing-input evaluation): on the identifier multiset
`["10", "2", "abc", "1"]` both aggregators emit `["abc", "1", "2", "10"]`
— the non-numeric identifier first — because the sort key
`(isdigit, zfill)` orders `False` before `True`, not the claimed
`["1", "2", "10", "abc"]`. -/
theorem claim_C2_identifier_order_failing :
    (summarizeById ["id", "s"] [["10", "1"], ["2", "1"], ["abc", "1"], ["1", "1"]] "id"
        ["s"]).map (List.map ByIdOut.id) = .ok ["abc", "1", "2", "10"]
    ∧ (summarizeDecimalInteger ["id", "p"] [["10", "1"], ["2", "1"], ["abc", "1"], ["1", "1"]]
        "id" "p" none).map (List.map DIOut.id) = .ok ["abc", "1", "2", "10"]
    ∧ ["abc", "1", "2", "10"] ≠ ["1", "2", "10", "abc"] :=
  ⟨by decide, by decide, by decide⟩

/-- C6 (failing-input evaluation): `_parse_value` returns the sentinel
on `"inf"`/`"nan"` without raising, but `_column_has_decimals` on a
column containing `"inf"` raises an uncaught `OverflowError` from
`int(float("inf"))` — the `except ValueError` clause does not catch
it. -/
theorem claim_C6_dominance_test_raises :
    pyParseValue "inf" = none
    ∧ pyParseValue "nan" = none
    ∧ columnHasDecimals [["nan"]] 0 = .ok false
    ∧ columnHasDecimals [["inf"]] 0
        = .error (.overflowError "cannot convert float infinity to integer") :=
  ⟨by decide, by decide, by decide, by decide⟩

/-- C3: both aggregators skip rows whose identifier cell is blank or
absent; every remaining row increments its identifier's overall
`count` even when its score cells are unparseable, so the sum of the
emitted `count`s equals the number of rows with a non-blank identifier
and no emitted record carries an empty identifier key. -/
theorem claim_C3_count_conservation (headers : List String) (rows : List (List String))
    (idColumn primaryColumn : String) (secondaryColumn : Option String)
    (idColumn2 : String) (scoreColumns : List String)
    (ii pi2 jj : ℕ) (out : List DIOut) (out2 : List ByIdOut)
    (h1 : headers.findIdx? (· = idColumn) = some ii)
    (h2 : headers.findIdx? (· = primaryColumn) = some pi2)
    (hok : summarizeDecimalInteger headers rows idColumn primaryColumn secondaryColumn = .ok out)
    (h3 : headers.findIdx? (· = idColumn2) = some jj)
    (hne : headers.enum.filter (fun p => p.2 ∈ scoreColumns) ≠ [])
    (hok2 : summarizeById headers rows idColumn2 scoreColumns = .ok out2) :
    ((out.map DIOut.count).sum = rows.countP (rowPasses ii)
      ∧ ∀ rec ∈ out, rec.id ≠ "")
    ∧ ((out2.map ByIdOut.count).sum = rows.countP (rowPasses jj)
      ∧ ∀ rec ∈ out2, rec.id ≠ "") := by
  constructor
  · obtain ⟨pid, acc, hpid, hproc, hout⟩ :=
      summarizeDI_ok_elim headers rows idColumn primaryColumn secondaryColumn ii pi2 out
        h1 h2 hok
    obtain ⟨hsum, hnodup, hkeys⟩ :=
      diProcess_ok_props ii pi2 (diSecondaryIdx headers secondaryColumn) pid rows [] acc hproc
    have hnd : (acc.map Prod.fst).Nodup := hnodup (by simp)
    have hkey : ∀ k ∈ acc.map Prod.fst, k ≠ "" := hkeys (by simp)
    constructor
    · rw [hout, List.map_map]
      have hcomp : (DIOut.count ∘ fun k => diOutOf k ((alookup acc k).getD diRec0))
          = fun k => ((alookup acc k).getD diRec0).count := rfl
      rw [hcomp]
      have hperm := (List.perm_insertionSort aggIdRel (acc.map Prod.fst)).map
        fun k => ((alookup acc k).getD diRec0).count
      rw [hperm.sum_eq, map_alookup_keys (fun r => r.count) diRec0 acc hnd]
      simpa using hsum
    · intro rec hrec
      rw [hout] at hrec
      obtain ⟨k, hk, hrfl⟩ := List.mem_map.mp hrec
      have hkmem : k ∈ acc.map Prod.fst := (List.mem_insertionSort aggIdRel).mp hk
      rw [← hrfl]
      exact hkey k hkmem
  · have hemit := summarizeById_ok_elim headers rows idColumn2 scoreColumns jj out2 h3 hne hok2
    set si := headers.enum.filter (fun p => p.2 ∈ scoreColumns) with hsi
    set acc := byProcess jj si rows [] with hacc
    obtain ⟨hids, hcounts⟩ := byEmit_ok acc scoreColumns si _ out2 hemit
    obtain ⟨hsum, hnodup, hkeys⟩ := byProcess_props jj si rows []
    have hnd : (acc.map Prod.fst).Nodup := hnodup (by simp)
    have hkey : ∀ k ∈ acc.map Prod.fst, k ≠ "" := hkeys (by simp)
    constructor
    · rw [hcounts]
      have hperm := (List.perm_insertionSort aggIdRel (acc.map Prod.fst)).map
        fun k => ((alookup acc k).getD (byRec0 si)).count
      rw [hperm.sum_eq, map_alookup_keys (fun r => r.count) (byRec0 si) acc hnd]
      simpa using hsum
    · intro rec hrec
      have : rec.id ∈ out2.map ByIdOut.id := List.mem_map_of_mem ByIdOut.id hrec
      rw [hids] at this
      exact hkey rec.id ((List.mem_insertionSort aggIdRel).mp this)

/-- Witness for C3 on a concrete table with blank identifiers and
unparseable score cells. -/
theorem claim_C3_count_conservation_witness :
    ((List.map DIOut.count
        ((summarizeDecimalInteger ["id", "p"] [["1", "x"], ["", "2"], ["1", "3"]] "id" "p"
          none).toOption.getD [])).sum = 2) := by
  have h := claim_C3_count_conservation ["id", "p"] [["1", "x"], ["", "2"], ["1", "3"]]
    "id" "p" none "id" ["p"] 0 1 0
    ((summarizeDecimalInteger ["id", "p"] [["1", "x"], ["", "2"], ["1", "3"]] "id" "p"
      none).toOption.getD [])
    ((summarizeById ["id", "p"] [["1", "x"], ["", "2"], ["1", "3"]] "id" ["p"]).toOption.getD [])
    (by decide) (by decide) (by decide) (by decide) (by decide) (by decide)
  rw [h.1.1]
  decide

/-- C5 (counterexample): `summarize_by_id` on one row whose only score
cell `"x"` is unparseable emits the sum as `0`, not as a missing value
— the claim that both aggregations emit the sum as an explicit missing
value is false. -/
theorem claim_C5_counterexample :
    summarizeById ["id", "s"] [["a", "x"]] "id" ["s"]
        = .ok [⟨"a", 1, [("s", 0, none)]⟩]
    ∧ pyParseValue "x" = none :=
  ⟨by decide, by decide⟩

/-- C5 (amended): for an identifier and tracked score with zero defined
numeric values, `summarize_decimal_integer` emits the score's sum and
mean as an explicit missing value; `summarize_by_id` emits the mean as
a missing value but always emits the sum, which is then `0`. -/
theorem claim_C5_amended_missing_aggregates (headers : List String)
    (rows : List (List String)) (idColumn primaryColumn : String)
    (secondaryColumn : Option String) (idColumn2 : String) (scoreColumns : List String)
    (ii pi2 jj : ℕ) (out : List DIOut) (out2 : List ByIdOut)
    (h1 : headers.findIdx? (· = idColumn) = some ii)
    (h2 : headers.findIdx? (· = primaryColumn) = some pi2)
    (hok : summarizeDecimalInteger headers rows idColumn primaryColumn secondaryColumn = .ok out)
    (h3 : headers.findIdx? (· = idColumn2) = some jj)
    (hne : headers.enum.filter (fun p => p.2 ∈ scoreColumns) ≠ [])
    (hok2 : summarizeById headers rows idColumn2 scoreColumns = .ok out2) :
    (∀ rec ∈ out, ∀ pid, columnHasDecimals rows pi2 = .ok pid →
      ((∀ row ∈ rows, rowPasses ii row = true → pyStrip (row.getD ii "") = rec.id →
          ∀ res, decimalAndIntegerScores
              (diRowVals pi2 (diSecondaryIdx headers secondaryColumn) row).1
              (diRowVals pi2 (diSecondaryIdx headers secondaryColumn) row).2 pid
            = .ok res → res.1 = none) →
        rec.decimalScoreSum = none ∧ rec.decimalScoreMean = none)
      ∧ ((∀ row ∈ rows, rowPasses ii row = true → pyStrip (row.getD ii "") = rec.id →
          ∀ res, decimalAndIntegerScores
              (diRowVals pi2 (diSecondaryIdx headers secondaryColumn) row).1
              (diRowVals pi2 (diSecondaryIdx headers secondaryColumn) row).2 pid
            = .ok res → res.2 = none) →
        rec.integerScoreSum = none ∧ rec.integerScoreMean = none))
    ∧ (∀ rec ∈ out2, ∀ c s m, (c, s, m) ∈ rec.scores →
        (∀ row ∈ rows, rowPasses jj row = true → pyStrip (row.getD jj "") = rec.id →
          ∀ p ∈ headers.enum.filter (fun p => p.2 ∈ scoreColumns), p.2 = c →
            (if p.1 < row.length then pyParseValue (row.getD p.1 "") else none) = none) →
        s = 0 ∧ m = none) := by
  constructor
  · intro rec hrec pid hpid
    obtain ⟨pid2, acc, hpid2, hproc, hout⟩ :=
      summarizeDI_ok_elim headers rows idColumn primaryColumn secondaryColumn ii pi2 out
        h1 h2 hok
    have hpideq : pid2 = pid := by
      rw [hpid] at hpid2
      exact (Except.ok.inj hpid2).symm
    rw [hpideq] at hproc
    rw [hout] at hrec
    obtain ⟨k, hk, hrfl⟩ := List.mem_map.mp hrec
    have hid : rec.id = k := by rw [← hrfl]; rfl
    constructor
    · intro hnone
      have hzero : ∀ r, alookup acc k = some r → r.decimalN = 0 := by
        refine diProcess_measure_zero ii pi2 (diSecondaryIdx headers secondaryColumn) pid k
          (fun r => r.decimalN) rfl rows ?_ [] acc hproc (by intro r hr; cases hr)
        intro row hrow hpass hkey res hres r
        have := hnone row hrow hpass (hid ▸ hkey) res hres
        rw [this]
        exact diStep_decimalN_none res.2 r
      rw [← hrfl]
      cases hv : alookup acc k with
      | none => simp [diOutOf, hv, diRec0]
      | some r =>
        have := hzero r hv
        simp [diOutOf, hv, this]
    · intro hnone
      have hzero : ∀ r, alookup acc k = some r → r.integerN = 0 := by
        refine diProcess_measure_zero ii pi2 (diSecondaryIdx headers secondaryColumn) pid k
          (fun r => r.integerN) rfl rows ?_ [] acc hproc (by intro r hr; cases hr)
        intro row hrow hpass hkey res hres r
        have := hnone row hrow hpass (hid ▸ hkey) res hres
        rw [this]
        exact diStep_integerN_none res.1 r
      rw [← hrfl]
      cases hv : alookup acc k with
      | none => simp [diOutOf, hv, diRec0]
      | some r =>
        have := hzero r hv
        simp [diOutOf, hv, this]
  · intro rec hrec c s m hcs hnone
    have hemit := summarizeById_ok_elim headers rows idColumn2 scoreColumns jj out2 h3 hne hok2
    set si := headers.enum.filter (fun p => p.2 ∈ scoreColumns) with hsi
    set acc := byProcess jj si rows [] with hacc
    -- locate the record inside the emission
    have hmem : ∀ (ks : List String) (l : List ByIdOut),
        byEmit acc scoreColumns si ks = .ok l → ∀ r0 ∈ l,
          ∃ k, r0.id = k
            ∧ ∃ sc, byOutScores scoreColumns ((alookup acc k).getD (byRec0 si)) = .ok sc
              ∧ r0.scores = sc := by
      intro ks
      induction ks with
      | nil =>
        intro l hl r0 hr0
        simp only [byEmit] at hl
        cases hl
        simp at hr0
      | cons k ks ih =>
        intro l hl r0 hr0
        simp only [byEmit] at hl
        cases hsc : byOutScores scoreColumns ((alookup acc k).getD (byRec0 si)) with
        | error e => rw [hsc] at hl; cases hl
        | ok sc =>
          rw [hsc] at hl
          cases htl : byEmit acc scoreColumns si ks with
          | error e => rw [htl] at hl; cases hl
          | ok tail =>
            rw [htl] at hl
            cases hl
            rcases List.mem_cons.mp hr0 with hh | ht
            · exact ⟨k, by rw [hh], sc, hsc, by rw [hh]⟩
            · exact ih tail htl r0 ht
    obtain ⟨k, hkid, sc, hsc, hscores⟩ := hmem _ out2 hemit rec hrec
    -- the column slots for c at key k are zero/empty
    have hslot : (∀ s0, alookup ((alookup acc k).getD (byRec0 si)).sums c = some s0 → s0 = 0)
        ∧ ∀ vs, alookup ((alookup acc k).getD (byRec0 si)).values c = some vs → vs = [] := by
      cases hv : alookup acc k with
      | none =>
        simp only [Option.getD_none]
        exact ⟨byRec0_sums_zero si c, byRec0_values_nil si c⟩
      | some r =>
        simp only [Option.getD_some]
        refine byProcess_col_zero jj si k c rows ?_ [] (by intro r0 hr0; cases hr0) r ?_
        · intro row hrow hpass hkey p hp hpc
          exact hnone row hrow hpass (hkid ▸ hkey) p hp hpc
        · rw [← hacc]
          exact hv
    -- byOutScores reads exactly those slots
    have hread : ∀ (cols : List String) (sc2 : List (String × ℚ × Option ℚ)),
        byOutScores cols ((alookup acc k).getD (byRec0 si)) = .ok sc2 →
        ∀ c2 s2 m2, (c2, s2, m2) ∈ sc2 →
          ∃ s0 vs, alookup ((alookup acc k).getD (byRec0 si)).sums c2 = some s0
            ∧ alookup ((alookup acc k).getD (byRec0 si)).values c2 = some vs
            ∧ s2 = pyRoundQ4 s0
            ∧ m2 = if vs.length ≠ 0 then some (pyRoundQ4 (s0 / (vs.length : ℚ))) else none := by
      intro cols
      induction cols with
      | nil =>
        intro sc2 hsc2 c2 s2 m2 hm
        simp only [byOutScores] at hsc2
        cases hsc2
        simp at hm
      | cons c0 cols ih =>
        intro sc2 hsc2 c2 s2 m2 hm
        simp only [byOutScores] at hsc2
        cases hs0 : alookup ((alookup acc k).getD (byRec0 si)).sums c0 with
        | none => rw [hs0] at hsc2; cases hsc2
        | some s0 =>
          rw [hs0] at hsc2
          cases hv0 : alookup ((alookup acc k).getD (byRec0 si)).values c0 with
          | none => rw [hv0] at hsc2; cases hsc2
          | some vs0 =>
            rw [hv0] at hsc2
            cases htl : byOutScores cols ((alookup acc k).getD (byRec0 si)) with
            | error e => rw [htl] at hsc2; cases hsc2
            | ok tail =>
              rw [htl] at hsc2
              cases hsc2
              rcases List.mem_cons.mp hm with hh | ht
              · have hc2 : c2 = c0 := congrArg (fun t => t.1) hh
                have hs2 : s2 = pyRoundQ4 s0 := congrArg (fun t => t.2.1) hh
                have hm2 : m2 = if vs0.length ≠ 0 then
                    some (pyRoundQ4 (s0 / (vs0.length : ℚ))) else none :=
                  congrArg (fun t => t.2.2) hh
                subst hc2
                exact ⟨s0, vs0, hs0, hv0, hs2, hm2⟩
              · exact ih tail htl c2 s2 m2 ht
    obtain ⟨s0, vs, hs0, hvs, hseq, hmeq⟩ := hread scoreColumns sc hsc c s m (hscores ▸ hcs)
    have hs00 : s0 = 0 := hslot.1 s0 hs0
    have hvs0 : vs = [] := hslot.2 vs hvs
    subst hs00
    subst hvs0
    constructor
    · rw [hseq]
      decide
    · rw [hmeq]
      simp

/-- Witness for the amended C5 on a concrete one-row table whose score
cells are unparseable. -/
theorem claim_C5_amended_missing_aggregates_witness :
    (⟨"1", 1, none, none, none, none⟩ : DIOut).decimalScoreSum = none
    ∧ (⟨"1", 1, none, none, none, none⟩ : DIOut).decimalScoreMean = none := by
  have h := claim_C5_amended_missing_aggregates ["id", "p"] [["1", "x"]] "id" "p" none
    "id" ["p"] 0 1 0 [⟨"1", 1, none, none, none, none⟩] [⟨"1", 1, [("p", 0, none)]⟩]
    (by decide) (by decide) (by decide) (by decide) (by decide) (by decide)
  refine (h.1 ⟨"1", 1, none, none, none, none⟩ (by decide) false (by decide)).1 ?_
  intro row hrow hpass hkey res hres
  simp only [List.mem_singleton] at hrow
  subst hrow
  have hval : decimalAndIntegerScores
      (diRowVals 1 (diSecondaryIdx ["id", "p"] none) ["1", "x"]).1
      (diRowVals 1 (diSecondaryIdx ["id", "p"] none) ["1", "x"]).2 false
      = .ok (none, none) := by decide
  rw [hval] at hres
  cases hres
  rfl

/-- C4 (counterexample): on times `["12.5", "bad", "20.0"]` the shot
list comes out `["bad", "20.0", "12.5"]` — under `reverse=True` the
non-numeric category `(1, _)` sorts before the numeric category
`(0, _)` — not the claimed `["20.0", "12.5", "bad"]`. -/
theorem claim_C4_counterexample :
    (getShotsForStartNr ["id", "p", "t"]
        [["1", "1", "12.5"], ["1", "2", "bad"], ["1", "3", "20.0"]]
        "id" "p" none "t" "1").map (List.map Shot.time)
      = .ok ["bad", "20.0", "12.5"]
    ∧ ["bad", "20.0", "12.5"] ≠ ["20.0", "12.5", "bad"] :=
  ⟨by decide, by decide⟩

/-- C4 (amended): the shot list is stable-sorted descending by the key
`(0, float(time))` for numeric times and `(1, time)` for non-numeric
ones, so (provided no time parses as NaN) successive shots never
increase in key — numerically descending within the numeric group,
lexically descending within the non-numeric group — and a
numeric-time shot never precedes a non-numeric-time shot: all
non-numeric times come first. -/
theorem claim_C4_amended_time_order (headers : List String) (rows : List (List String))
    (idColumn primaryColumn : String) (secondaryColumn : Option String)
    (timeColumn startNrVal : String) (out : List Shot)
    (hok : getShotsForStartNr headers rows idColumn primaryColumn secondaryColumn
      timeColumn startNrVal = .ok out)
    (hnonan : ∀ s ∈ out, timeSortKey s.time ≠ Sum.inl PyFloat.nan) :
    out.Pairwise (fun a b => timeKeyLt (timeSortKey a.time) (timeSortKey b.time) = false)
    ∧ out.Pairwise (fun a b =>
        ¬ ((timeSortKey a.time).isLeft = true ∧ (timeSortKey b.time).isRight = true)) := by
  have hfirst :
      out.Pairwise (fun a b => timeKeyLt (timeSortKey a.time) (timeSortKey b.time) = false) := by
    unfold getShotsForStartNr at hok
    cases hi : headers.findIdx? (· = idColumn) with
    | none =>
      simp only [hi] at hok
      cases hok
      exact List.Pairwise.nil
    | some ii =>
      cases hpi : headers.findIdx? (· = primaryColumn) with
      | none =>
        simp only [hi, hpi] at hok
        cases hok
        exact List.Pairwise.nil
      | some pi2 =>
        simp only [hi, hpi] at hok
        cases hpid : columnHasDecimals rows pi2 with
        | error e => rw [hpid] at hok; cases hok
        | ok pid =>
          simp only [hpid] at hok
          cases hbuild : buildShots ii pi2 (diSecondaryIdx headers secondaryColumn)
              (headers.findIdx? (· = timeColumn)) pid (pyStrip startNrVal) 0 rows with
          | error e =>
            simp only [hbuild] at hok
            exact Except.noConfusion hok
          | ok shots =>
            simp only [hbuild] at hok
            cases hok
            refine sorted_insertionSort_local _ (fun s => timeSortKey s.time ≠ Sum.inl .nan)
              ?_ ?_ shots ?_
            · intro a b
              cases h : timeKeyLt (timeSortKey a.time) (timeSortKey b.time) with
              | false => exact Or.inl rfl
              | true => exact Or.inr (timeKeyLt_asymm _ _ h)
            · intro a b c hPb hab hbc
              exact timeKeyLt_neg_trans _ _ _ hPb hab hbc
            · intro x hx
              exact hnonan x ((List.mem_insertionSort _).mpr hx)
  refine ⟨hfirst, hfirst.imp ?_⟩
  intro a b hr hc
  obtain ⟨h1, h2⟩ := hc
  cases hka : timeSortKey a.time with
  | inr s => rw [hka] at h1; cases h1
  | inl f =>
    cases hkb : timeSortKey b.time with
    | inl g => rw [hkb] at h2; cases h2
    | inr s2 =>
      rw [hka, hkb] at hr
      cases hr

/-- Witness for the amended C4 at the spec's example times. -/
theorem claim_C4_amended_time_order_witness :
    ((getShotsForStartNr ["id", "p", "t"]
        [["1", "1", "12.5"], ["1", "2", "bad"], ["1", "3", "20.0"]]
        "id" "p" none "t" "1").toOption.getD []).Pairwise
      (fun a b => timeKeyLt (timeSortKey a.time) (timeSortKey b.time) = false) :=
  (claim_C4_amended_time_order ["id", "p", "t"]
    [["1", "1", "12.5"], ["1", "2", "bad"], ["1", "3", "20.0"]]
    "id" "p" none "t" "1"
    ((getShotsForStartNr ["id", "p", "t"]
        [["1", "1", "12.5"], ["1", "2", "bad"], ["1", "3", "20.0"]]
        "id" "p" none "t" "1").toOption.getD [])
    (by decide) (by decide)).1

/-- C8 (counterexample): for the primary cell `"05"` the emitted
`Primary score` field is `"5"` — the `str()` rendering of the parsed
value — not the raw cell string `"05"` that the claim requires. -/
theorem claim_C8_counterexample :
    getShotsForStartNr ["id", "p", "t"] [["1", "05", "1"]] "id" "p" none "t" "1"
      = .ok [⟨0, "1", "5", "", none, some 5⟩]
    ∧ "5" ≠ "05" :=
  ⟨by decide, by decide⟩

/-- C8 (amended): every emitted ShotRecord carries as `index` its row's
original position within the filtered input sequence, as `Time` the
row's stripped time cell, as `Primary score`/`Secondary score` the
`str()` rendering of the parsed primary/secondary values (empty when
undefined) — not the raw cell text — and separately the derived
decimal score rounded to 4 digits and the derived integer score. -/
theorem claim_C8_amended_shot_fields (headers : List String) (rows : List (List String))
    (idColumn primaryColumn : String) (secondaryColumn : Option String)
    (timeColumn startNrVal : String) (ii pi2 : ℕ) (out : List Shot)
    (h1 : headers.findIdx? (· = idColumn) = some ii)
    (h2 : headers.findIdx? (· = primaryColumn) = some pi2)
    (hok : getShotsForStartNr headers rows idColumn primaryColumn secondaryColumn
      timeColumn startNrVal = .ok out) :
    ∀ s ∈ out, ∃ j, j < rows.length ∧ s.index = j
      ∧ ii < (rows.getD j []).length
      ∧ pyStrip ((rows.getD j []).getD ii "") = pyStrip startNrVal
      ∧ s.time = rowTimeVal (headers.findIdx? (· = timeColumn)) (rows.getD j [])
      ∧ s.primaryScore = optValStr (rowPrimaryVal pi2 (rows.getD j []))
      ∧ s.secondaryScore
          = optValStr (rowSecondaryVal (diSecondaryIdx headers secondaryColumn) (rows.getD j []))
      ∧ ∀ pid, columnHasDecimals rows pi2 = .ok pid →
          ∃ res, decimalAndIntegerScores (rowPrimaryVal pi2 (rows.getD j []))
              (rowSecondaryVal (diSecondaryIdx headers secondaryColumn) (rows.getD j [])) pid
            = .ok res
            ∧ s.decimalScore = res.1.map pyRound4Val ∧ s.integerScore = res.2 := by
  intro s hs
  unfold getShotsForStartNr at hok
  rw [h1, h2] at hok
  simp only [] at hok
  cases hpid : columnHasDecimals rows pi2 with
  | error e =>
    simp only [hpid] at hok
    exact Except.noConfusion hok
  | ok pid =>
    simp only [hpid] at hok
    cases hbuild : buildShots ii pi2 (diSecondaryIdx headers secondaryColumn)
        (headers.findIdx? (· = timeColumn)) pid (pyStrip startNrVal) 0 rows with
    | error e =>
      simp only [hbuild] at hok
      exact Except.noConfusion hok
    | ok shots =>
      simp only [hbuild] at hok
      cases hok
      have hmem : s ∈ shots := (List.mem_insertionSort _).mp hs
      obtain ⟨j, hj, hidx, hlen, hkey, htime, hprim, hsec, res, hres, hdec, hint⟩ :=
        buildShots_mem ii pi2 (diSecondaryIdx headers secondaryColumn)
          (headers.findIdx? (· = timeColumn)) pid (pyStrip startNrVal) rows 0 shots hbuild s hmem
      refine ⟨j, hj, by simpa using hidx, hlen, hkey, htime, hprim, hsec, ?_⟩
      intro pid2 hpid2
      obtain rfl := Except.ok.inj hpid2
      exact ⟨res, hres, hdec, hint⟩

/-- Witness for the amended C8: the `Primary score` field of the shot
built from the cell `"05"` is the rendering of its parsed value. -/
theorem claim_C8_amended_shot_fields_witness :
    (⟨0, "1", "5", "", none, some 5⟩ : Shot).primaryScore
      = optValStr (rowPrimaryVal 1 ([["1", "05", "1"]].getD 0 [])) := by
  have h := claim_C8_amended_shot_fields ["id", "p", "t"] [["1", "05", "1"]] "id" "p" none
    "t" "1" 0 1 [⟨0, "1", "5", "", none, some 5⟩] (by decide) (by decide) (by decide)
  obtain ⟨j, hj, hidx, hlen, hkey, htime, hprim, hrest⟩ :=
    h ⟨0, "1", "5", "", none, some 5⟩ (by decide)
  have hj0 : j = 0 := Nat.lt_one_iff.mp (by simpa using hj)
  subst hj0
  exact hprim

/-- The primary-score suggestion is exactly the alias match. -/
theorem suggestColumns_primaryScore (csvHeaders : List String) :
    (suggestColumns csvHeaders).primaryScore = matchCsvHeaderToField csvHeaders PRIMARY_SCORE :=
  rfl

/-- C7: when the primary-score column cannot be resolved against the
headers the summary endpoint fails hard with the human-readable reason
`"No Primary score column in SIUSFields"` and produces no aggregate;
the identifier column always resolves to a member of the headers (so
its failure case cannot arise); and any successful aggregate implies
the primary-score column resolved to an actual header. -/
theorem claim_C7_missing_column_hard_failure (headers : List String)
    (rows : List (List String)) (relayFilter : Option String)
    (startNrsFilter : Option (List String)) (excludedIndices : List ℕ) :
    (headers = [] → summaryCore headers rows relayFilter startNrsFilter excludedIndices
        = .error "Upload a file first")
    ∧ (headers ≠ [] → rows ≠ [] →
        matchCsvHeaderToField headers PRIMARY_SCORE = none →
        summaryCore headers rows relayFilter startNrsFilter excludedIndices
          = .error "No Primary score column in SIUSFields"
          ∧ "No Primary score column in SIUSFields" ≠ "")
    ∧ (headers ≠ [] → ∃ x, (suggestColumns headers).startNr = some x ∧ x ∈ headers)
    ∧ (∀ out, summaryCore headers rows relayFilter startNrsFilter excludedIndices = .ok out →
        ∃ pc, matchCsvHeaderToField headers PRIMARY_SCORE = some pc ∧ pc ≠ ""
          ∧ pc ∈ headers) := by
  refine ⟨?_, ?_, fun h => suggestColumns_startNr_mem headers h, ?_⟩
  · intro h
    unfold summaryCore
    rw [if_pos (Or.inl h)]
  · intro hne hrows hmiss
    constructor
    · unfold summaryCore
      rw [if_neg (by simp [hne, hrows])]
      simp only [suggestColumns_primaryScore, hmiss]
    · simp
  · intro out hout
    unfold summaryCore at hout
    by_cases hcond : headers = [] ∨ rows = []
    · rw [if_pos hcond] at hout
      exact Except.noConfusion hout
    · rw [if_neg hcond] at hout
      simp only [suggestColumns_primaryScore] at hout
      cases hm : matchCsvHeaderToField headers PRIMARY_SCORE with
      | none =>
        simp only [hm] at hout
        exact Except.noConfusion hout
      | some pc =>
        simp only [hm] at hout
        by_cases hpc : pc = ""
        · rw [if_pos hpc] at hout
          exact Except.noConfusion hout
        · exact ⟨pc, rfl, hpc, matchCsvHeaderToField_mem headers PRIMARY_SCORE pc hm⟩

/-- Witness for C7 on a concrete header set with no primary-score
column. -/
theorem claim_C7_missing_column_hard_failure_witness :
    summaryCore ["a", "b"] [["1", "2"]] none none []
      = .error "No Primary score column in SIUSFields" :=
  ((claim_C7_missing_column_hard_failure ["a", "b"] [["1", "2"]] none none []).2.1
    (by decide) (by decide) (by decide)).1

/-- C9: in the shot-filter pipeline, a present-but-empty identifier
allow-list yields an empty row set; an absent allow-list applies no
identifier filtering (it agrees with any allow-list that permits every
relay-filtered row); and the excluded positions are applied last, as
positions within the already relay- and allow-filtered sequence. -/
theorem claim_C9_filter_pipeline (relayFilter : Option String)
    (startNrsFilter : Option (List String)) (excludedIndices : List ℕ)
    (relayIdx : Option ℕ) (si0 : ℕ) (rows : List (List String)) :
    (applyShotFilters relayFilter (some []) excludedIndices relayIdx (some si0) rows = [])
    ∧ (∀ fl : List String, fl ≠ [] →
        (∀ r ∈ relayStage relayFilter relayIdx rows,
          si0 < r.length ∧ pyStrip (r.getD si0 "") ∈ fl) →
        applyShotFilters relayFilter (some fl) excludedIndices relayIdx (some si0) rows
          = applyShotFilters relayFilter none excludedIndices relayIdx (some si0) rows)
    ∧ applyShotFilters relayFilter startNrsFilter excludedIndices relayIdx (some si0) rows
        = ((allowStage startNrsFilter (some si0)
            (relayStage relayFilter relayIdx rows)).enum.filter
              fun p => p.1 ∉ excludedIndices).map Prod.snd := by
  refine ⟨?_, ?_, ?_⟩
  · show excludeStage excludedIndices (allowStage (some []) (some si0) _) = []
    have hallow : allowStage (some []) (some si0)
        (relayStage relayFilter relayIdx rows) = [] := by
      unfold allowStage
      simp
    rw [hallow]
    unfold excludeStage
    by_cases h : excludedIndices = [] <;> simp [h]
  · intro fl hfl hall
    show excludeStage excludedIndices (allowStage (some fl) (some si0) _)
      = excludeStage excludedIndices (allowStage none (some si0) _)
    have hdef : allowStage (some fl) (some si0) (relayStage relayFilter relayIdx rows)
        = if fl = [] then []
          else (relayStage relayFilter relayIdx rows).filter
            fun r => decide (si0 < r.length ∧ pyStrip (r.getD si0 "") ∈ fl) := rfl
    have h1 : allowStage (some fl) (some si0) (relayStage relayFilter relayIdx rows)
        = relayStage relayFilter relayIdx rows := by
      rw [hdef, if_neg hfl]
      exact List.filter_eq_self.mpr fun r hr => by
        simpa using hall r hr
    have h2 : allowStage none (some si0) (relayStage relayFilter relayIdx rows)
        = relayStage relayFilter relayIdx rows := rfl
    rw [h1, h2]
  · exact excludeStage_eq excludedIndices _

/-- Witness for C9: a permit-everything allow-list agrees with the
absent allow-list, and the empty allow-list empties the output. -/
theorem claim_C9_filter_pipeline_witness :
    applyShotFilters none (some []) [] none (some 0) [["1"]] = []
    ∧ applyShotFilters none (some ["1"]) [2] none (some 0) [["1"], ["1"], ["1"]]
        = applyShotFilters none none [2] none (some 0) [["1"], ["1"], ["1"]] :=
  ⟨(claim_C9_filter_pipeline none (some []) [] none 0 [["1"]]).1,
   (claim_C9_filter_pipeline none (some ["1"]) [2] none 0
      [["1"], ["1"], ["1"]]).2.1 ["1"] (by decide) (by decide)⟩

/-- C10: in hint-free column-role inference, a non-identifier column
whose sampled cells (first 50 rows) are all empty or missing is
classified as a score column — the all-sampled-cells-numeric fallback
is vacuously satisfied by an entirely blank sample. -/
theorem claim_C10_blank_column_is_score (headers : List String) (rows : List (List String))
    (i : ℕ) (h : String)
    (hne : headers ≠ []) (hrne : rows ≠ [])
    (hget : headers[i]? = some h)
    (hid : h ∉ (inferColumnTypes headers rows none none).1)
    (hsample : ∀ row ∈ rows.take 50, row.getD i "" = "") :
    h ∈ (inferColumnTypes headers rows none none).2 := by
  rcases hic : inferColumnTypes headers rows none none with ⟨idCols, scoreCols⟩
  rw [hic] at hid
  simp only [] at hid ⊢
  unfold inferColumnTypes at hic
  rw [if_neg (by simp [hne, hrne])] at hic
  simp only [] at hic
  rw [Prod.mk.injEq] at hic
  obtain ⟨hfst, hsnd⟩ := hic
  rw [← hsnd]
  refine scoreColsLoop_mem _ _ rows headers.enum i h ?_ ?_ hsample
  · exact List.mk_mem_enum_iff_getElem?.mpr hget
  · rw [hfst]
    exact hid

/-- Witness for C10: a fully blank trailing column is classified as a
score column. -/
theorem claim_C10_blank_column_is_score_witness :
    "mystery" ∈ (inferColumnTypes ["Start NR", "mystery"] [["1", ""], ["2", ""]] none none).2 :=
  claim_C10_blank_column_is_score ["Start NR", "mystery"] [["1", ""], ["2", ""]] 1 "mystery"
    (by decide) (by decide) (by decide) (by decide) (by decide)
